import Mathlib

/-!
Verification development for the tile-based construction/management core
(occupancy map, construction and deconstruction pipelines, job scheduler,
room detection and zone classification).  The Lean definitions below are a
shallow embedding of the Rust sources: i32 grid coordinates are modelled as
integers, f32 quantities as rationals (exact arithmetic), HashSet/HashMap
key sets as finite sets of positions, and Bevy ECS queries as explicit
lists of component records.
-/

namespace Resort

/-- A grid tile coordinate, the model of IVec2 and GridPosition (i32 pair). -/
abbrev Pos : Type := ℤ × ℤ

/-- Model of the BuildingMap resource from systems/building.rs.  The Rust
walls and doors fields are HashMaps from position to the entity occupying
the tile; every claim under study depends only on their key sets, so they
are modelled as finite sets of positions. -/
structure BuildingMap where
  occupied : Finset Pos
  walls : Finset Pos
  doors : Finset Pos
  floors : Finset Pos
  deriving DecidableEq

/-- The Default impl for BuildingMap: all four collections empty. -/
def BuildingMap.empty : BuildingMap :=
  { occupied := ∅, walls := ∅, doors := ∅, floors := ∅ }

/-- BuildingMap::is_occupied: occupied.contains(pos) || walls.contains_key(pos). -/
def BuildingMap.is_occupied (m : BuildingMap) (p : Pos) : Prop :=
  p ∈ m.occupied ∨ p ∈ m.walls

instance (m : BuildingMap) (p : Pos) : Decidable (m.is_occupied p) := by
  unfold BuildingMap.is_occupied; infer_instance

/-- DoorOrientation from components/building.rs. -/
inductive DoorOrientation where
  | Horizontal
  | Vertical
  deriving DecidableEq

/-- Door::tiles_occupied: the two footprint tiles of a door, base tile plus
the tile to the east (Horizontal) or to the north (Vertical).  The same two
tile lists are recomputed inline in handle_building_placement and in
complete_deconstruction. -/
def Door.tiles_occupied (o : DoorOrientation) (base_pos : Pos) : List Pos :=
  match o with
  | .Horizontal => [base_pos, (base_pos.1 + 1, base_pos.2)]
  | .Vertical => [base_pos, (base_pos.1, base_pos.2 + 1)]

/-- BedType from components/furniture.rs. -/
inductive BedType where
  | Single
  | Double
  deriving DecidableEq

/-- FurnitureOrientation from components/furniture.rs. -/
inductive FurnitureOrientation where
  | East
  | South
  | West
  | North
  deriving DecidableEq

/-- FurnitureOrientation::is_horizontal. -/
def FurnitureOrientation.is_horizontal (o : FurnitureOrientation) : Bool :=
  match o with
  | .East => true
  | .West => true
  | _ => false

/-- FurnitureType from components/furniture.rs. -/
inductive FurnitureType where
  | Bed (b : BedType)
  | Desk
  | Chair
  | Dresser
  | Nightstand
  | Toilet
  | Sink
  | Tub
  | ReceptionConsole
  deriving DecidableEq

/-- FurnitureType::base_dimensions (width, height in tiles; i32 in the
source, always positive, modelled as naturals). -/
def FurnitureType.base_dimensions (ft : FurnitureType) : ℕ × ℕ :=
  match ft with
  | .Bed .Single => (2, 3)
  | .Bed .Double => (4, 4)
  | .Desk => (2, 2)
  | .Chair => (1, 1)
  | .Dresser => (2, 2)
  | .Nightstand => (1, 1)
  | .Toilet => (2, 2)
  | .Sink => (1, 1)
  | .Tub => (2, 4)
  | .ReceptionConsole => (1, 1)

/-- FurnitureType::oriented_dimensions: base dimensions, swapped when the
orientation is vertical (South/North). -/
def FurnitureType.oriented_dimensions (ft : FurnitureType)
    (o : FurnitureOrientation) : ℕ × ℕ :=
  let d := ft.base_dimensions
  if o.is_horizontal then (d.1, d.2) else (d.2, d.1)

/-- FurnitureType::tiles_occupied: all tiles (base + (x, y)) for
0 ≤ x < width, 0 ≤ y < height of the oriented dimensions, x in the outer
loop as in the source. -/
def FurnitureType.tiles_occupied (ft : FurnitureType) (base_pos : Pos)
    (o : FurnitureOrientation) : List Pos :=
  let d := ft.oriented_dimensions o
  (List.range d.1).foldr (fun x acc =>
    ((List.range d.2).map (fun y => (base_pos.1 + (x : ℤ), base_pos.2 + (y : ℤ)))) ++ acc) []

/-- Map effect of placing one wall tile in handle_building_placement (both
the drag path and the single-click path): skip when the tile is in
occupied, otherwise insert the tile into occupied and record the blueprint
entity in walls. -/
def place_wall_tile (m : BuildingMap) (p : Pos) : BuildingMap :=
  if p ∈ m.occupied then m
  else { m with occupied := insert p m.occupied, walls := insert p m.walls }

/-- Map effect of placing one floor tile in handle_building_placement:
skip when the tile is in occupied, otherwise insert into floors. -/
def place_floor_tile (m : BuildingMap) (p : Pos) : BuildingMap :=
  if p ∈ m.occupied then m
  else { m with floors := insert p m.floors }

/-- One iteration of the wall-replacement loop in door placement (and the
window path): if walls holds the tile, remove it from walls (despawning the
wall entity) and from occupied. -/
def remove_wall_at (m : BuildingMap) (t : Pos) : BuildingMap :=
  if t ∈ m.walls then
    { m with walls := m.walls.erase t, occupied := m.occupied.erase t }
  else m

/-- Map effect of door placement in handle_building_placement: the two
footprint tiles must each be free of doors and of non-wall occupants
(walls may be replaced); on success replaced walls are removed, then both
tiles are recorded in doors (door tiles are deliberately not added to
occupied). -/
def place_door (m : BuildingMap) (p : Pos) (o : DoorOrientation) : BuildingMap :=
  let door_tiles := Door.tiles_occupied o p
  if ∀ t ∈ door_tiles, t ∉ m.doors ∧ ¬(t ∈ m.occupied ∧ t ∉ m.walls) then
    let m1 := door_tiles.foldl remove_wall_at m
    door_tiles.foldl (fun mm t => { mm with doors := insert t mm.doors }) m1
  else m

/-- Map effect of window placement in handle_building_placement: skipped
when the tile is occupied by a non-wall or holds a door; otherwise an
existing wall at the tile is removed (walls and occupied) and the tile is
inserted into occupied. -/
def place_window (m : BuildingMap) (p : Pos) : BuildingMap :=
  if (p ∈ m.occupied ∧ p ∉ m.walls) ∨ p ∈ m.doors then m
  else
    let m1 := remove_wall_at m p
    { m1 with occupied := insert p m1.occupied }

/-- Map effect of regular furniture placement in handle_building_placement
(the ReceptionConsole branch is separate and never touches the map): every
footprint tile must have a floor and be free of occupants and doors; on
success all footprint tiles are inserted into occupied. -/
def place_furniture (m : BuildingMap) (ft : FurnitureType)
    (o : FurnitureOrientation) (p : Pos) : BuildingMap :=
  let furniture_tiles := ft.tiles_occupied p o
  if ∀ t ∈ furniture_tiles, t ∈ m.floors ∧ t ∉ m.occupied ∧ t ∉ m.doors then
    furniture_tiles.foldl (fun mm t => { mm with occupied := insert t mm.occupied }) m
  else m

/-- Map effect of complete_blueprints for a Wall blueprint: the walls map
entry at the blueprint position is updated to the finished wall entity
(walls.insert).  Completion of door, window, floor and furniture
blueprints writes nothing to the BuildingMap. -/
def complete_wall_blueprint (m : BuildingMap) (p : Pos) : BuildingMap :=
  { m with walls := insert p m.walls }

/-- Map effect of complete_deconstruction when the target entity is a Wall:
remove the tile from walls and from occupied. -/
def complete_deconstruction_wall (m : BuildingMap) (p : Pos) : BuildingMap :=
  { m with walls := m.walls.erase p, occupied := m.occupied.erase p }

/-- Map effect of complete_deconstruction when the target is a Door: both
footprint tiles, recomputed from the stored orientation, are removed from
doors. -/
def complete_deconstruction_door (m : BuildingMap) (p : Pos)
    (o : DoorOrientation) : BuildingMap :=
  { m with doors := (Door.tiles_occupied o p).foldl (fun s t => s.erase t) m.doors }

/-- Map effect of complete_deconstruction when the target is Furniture:
the source removes the fixed 2x2 block of tiles grid_pos + (x, y) for
x, y in 0..=1 from occupied (comment in the source: remove all potentially
occupied tiles around this position; check a 2x2 area). -/
def complete_deconstruction_furniture (m : BuildingMap) (p : Pos) : BuildingMap :=
  { m with occupied :=
      ([((0 : ℤ), (0 : ℤ)), (0, 1), (1, 0), (1, 1)].map
        (fun d => (p.1 + d.1, p.2 + d.2))).foldl (fun s t => s.erase t) m.occupied }

/-- Map effect of complete_deconstruction for a Window or any other
single-tile structure: remove the single tile from occupied. -/
def complete_deconstruction_other (m : BuildingMap) (p : Pos) : BuildingMap :=
  { m with occupied := m.occupied.erase p }

/-- The BuildingMap-mutating operations of the placement, job-completion
and deconstruction code paths. -/
inductive Op where
  | placeWall (p : Pos)
  | placeFloor (p : Pos)
  | placeDoor (p : Pos) (o : DoorOrientation)
  | placeWindow (p : Pos)
  | placeFurniture (ft : FurnitureType) (o : FurnitureOrientation) (p : Pos)
  | completeWall (p : Pos)
  | deconWall (p : Pos)
  | deconDoor (p : Pos) (o : DoorOrientation)
  | deconFurniture (p : Pos)
  | deconOther (p : Pos)
  deriving DecidableEq

/-- Apply one operation to the building map. -/
def applyOp (m : BuildingMap) : Op → BuildingMap
  | .placeWall p => place_wall_tile m p
  | .placeFloor p => place_floor_tile m p
  | .placeDoor p o => place_door m p o
  | .placeWindow p => place_window m p
  | .placeFurniture ft o p => place_furniture m ft o p
  | .completeWall p => complete_wall_blueprint m p
  | .deconWall p => complete_deconstruction_wall m p
  | .deconDoor p o => complete_deconstruction_door m p o
  | .deconFurniture p => complete_deconstruction_furniture m p
  | .deconOther p => complete_deconstruction_other m p

/-- Run a sequence of operations from a starting map. -/
def runOps (m : BuildingMap) (ops : List Op) : BuildingMap :=
  ops.foldl applyOp m

/-- The door/occupied disjointness invariant of the occupancy map. -/
def doors_disjoint (m : BuildingMap) : Prop :=
  ∀ p ∈ m.doors, p ∉ m.occupied

/-- An operation sequence is wall-safe from a map when no wall placement in
it targets a tile that is a door tile at the moment of placement (wall
placement checks only occupied, so the code accepts walls on door tiles). -/
def wall_safe (m : BuildingMap) : List Op → Bool
  | [] => true
  | op :: rest =>
    (match op with
     | .placeWall p => decide (p ∉ m.doors)
     | _ => true) && wall_safe (applyOp m op) rest

/-- FloorType from components/building.rs. -/
inductive FloorType where
  | Wood
  | Stone
  | Carpet
  | Tile
  deriving DecidableEq

/-- BlueprintType from components/work.rs. -/
inductive BlueprintType where
  | Wall
  | Door (o : DoorOrientation)
  | Window
  | Floor (ft : FloorType)
  | Furniture (ft : FurnitureType)
  deriving DecidableEq

/-- Blueprint from components/work.rs; the f32 work quantities are
modelled as rationals (exact arithmetic). -/
structure Blueprint where
  building_type : BlueprintType
  work_required : ℚ
  work_done : ℚ
  deriving DecidableEq

/-- Blueprint::new: the per-type work_required constants, work_done = 0. -/
def Blueprint.new (bt : BlueprintType) : Blueprint :=
  { building_type := bt,
    work_required :=
      match bt with
      | .Wall => 100
      | .Door _ => 150
      | .Window => 120
      | .Floor _ => 50
      | .Furniture _ => 80,
    work_done := 0 }

/-- Blueprint::is_complete: work_done >= work_required. -/
def Blueprint.is_complete (bp : Blueprint) : Prop :=
  bp.work_required ≤ bp.work_done

/-- TILE_SIZE constant from systems/grid.rs. -/
def TILE_SIZE : ℚ := 16

/-- Squared Euclidean distance between two world points.  The source
compares Vec2::distance (the Euclidean norm of the difference) against a
nonnegative radius; comparing the squared distance against the squared
radius is exactly equivalent, and avoids square roots in the rational
model. -/
def dist2 (a b : ℚ × ℚ) : ℚ :=
  (a.1 - b.1) ^ 2 + (a.2 - b.2) ^ 2

/-- One tick of work_on_blueprints for an assigned pawn: if the pawn is
within TILE_SIZE * 3.0 of the blueprint, add work_speed (50) * dt to
work_done and clamp it above at work_required (work_done.min). -/
def work_on_blueprint_tick (pawn_pos blueprint_pos : ℚ × ℚ) (dt : ℚ)
    (bp : Blueprint) : Blueprint :=
  if dist2 pawn_pos blueprint_pos < (TILE_SIZE * 3) ^ 2 then
    { bp with work_done := min (bp.work_done + 50 * dt) bp.work_required }
  else bp

/-- Run a sequence of work ticks against a fixed blueprint position; each
tick is (pawn position, dt). -/
def run_work (blueprint_pos : ℚ × ℚ) (bp : Blueprint)
    (ticks : List ((ℚ × ℚ) × ℚ)) : Blueprint :=
  ticks.foldl (fun b t => work_on_blueprint_tick t.1 blueprint_pos t.2 b) bp

/-- Cost table from BuildingType::cost in ui/toolbar.rs, furniture branch. -/
def furniture_cost (ft : FurnitureType) : ℤ :=
  match ft with
  | .Bed .Single => 200
  | .Bed .Double => 350
  | .Desk => 100
  | .Chair => 50
  | .Dresser => 150
  | .Nightstand => 75
  | .Toilet => 125
  | .Sink => 80
  | .Tub => 275
  | .ReceptionConsole => 300

/-- Money resource from systems/economy.rs. -/
structure Money where
  amount : ℤ
  deriving DecidableEq

/-- Money::can_afford: amount >= cost. -/
def Money.can_afford (mo : Money) (cost : ℤ) : Prop :=
  cost ≤ mo.amount

instance (mo : Money) (cost : ℤ) : Decidable (mo.can_afford cost) := by
  unfold Money.can_afford; infer_instance

/-- The four tiles of a desk's 2x2 footprint as enumerated in the has_desk
check of handle_building_placement. -/
def desk_tiles (desk_pos : Pos) : List Pos :=
  [desk_pos, (desk_pos.1 + 1, desk_pos.2), (desk_pos.1, desk_pos.2 + 1),
   (desk_pos.1 + 1, desk_pos.2 + 1)]

/-- The ReceptionConsole branch of handle_building_placement: if no desk's
2x2 footprint covers the clicked tile, return with nothing spawned; then
the affordability check; on success the cost is deducted and the console
entity spawned, and the BuildingMap is left untouched (the desk already
occupies the tiles).  Result: (map, money, whether a console was spawned). -/
def place_reception_console (desk_positions : List Pos) (m : BuildingMap)
    (money : Money) (p : Pos) : BuildingMap × Money × Bool :=
  if ∃ d ∈ desk_positions, p ∈ desk_tiles d then
    if money.can_afford (furniture_cost .ReceptionConsole) then
      (m, { amount := money.amount - furniture_cost .ReceptionConsole }, true)
    else (m, money, false)
  else (m, money, false)

/-- GridPoint from systems/save_load.rs; its derived Ord is lexicographic
in field order, x then y. -/
structure GridPoint where
  x : ℤ
  y : ℤ
  deriving DecidableEq

/-- The (x, y)-lexicographic order on grid points: the derived GridPoint
Ord used by walls.sort(), and the tuple order of the (x, y) sort keys used
by the sort_by_key calls. -/
def GridPoint.le (a b : GridPoint) : Prop :=
  a.x < b.x ∨ (a.x = b.x ∧ a.y ≤ b.y)

instance (a b : GridPoint) : Decidable (a.le b) := by
  unfold GridPoint.le; infer_instance

/-- FloorData from systems/save_load.rs. -/
structure FloorData where
  position : GridPoint
  floor_type : FloorType
  deriving DecidableEq

/-- DoorData from systems/save_load.rs. -/
structure DoorData where
  position : GridPoint
  door_facing : DoorOrientation
  deriving DecidableEq

/-- FurnitureData from systems/save_load.rs. -/
structure FurnitureData where
  position : GridPoint
  furniture_type : FurnitureType
  furniture_facing : FurnitureOrientation
  deriving DecidableEq

/-- SaveData from systems/save_load.rs. -/
structure SaveData where
  walls : List GridPoint
  floors : List FloorData
  doors : List DoorData
  furniture : List FurnitureData
  deriving DecidableEq

/-- sort_save_data: walls.sort() by the derived GridPoint Ord, and the
other three lists sort_by_key (position.x, position.y); Rust's stable
sort is modelled by stable merge sort. -/
def sort_save_data (d : SaveData) : SaveData :=
  { walls := d.walls.mergeSort (fun a b => decide (GridPoint.le a b)),
    floors := d.floors.mergeSort
      (fun a b => decide (GridPoint.le a.position b.position)),
    doors := d.doors.mergeSort
      (fun a b => decide (GridPoint.le a.position b.position)),
    furniture := d.furniture.mergeSort
      (fun a b => decide (GridPoint.le a.position b.position)) }

/-- ZoneType from components/zone.rs. -/
inductive ZoneType where
  | Lobby
  | GuestBedroom
  | Relaxation
  | Luxury
  | FamilyFun
  | Adventure
  | Culinary
  deriving DecidableEq

/-- ZoneQuality from components/zone.rs. -/
inductive ZoneQuality where
  | None
  | Basic
  | Good
  | Excellent
  | Luxury
  deriving DecidableEq

/-- RequiredFurniture from components/zone.rs. -/
inductive RequiredFurniture where
  | Bed
  | Desk
  | Chair
  | Dresser
  | Nightstand
  | ReceptionConsole
  deriving DecidableEq

/-- ZoneRequirements from components/zone.rs. -/
structure ZoneRequirements where
  min_tiles : ℕ
  required_furniture : List RequiredFurniture
  deriving DecidableEq

/-- ZoneType::requirements: the per-zone-type minimum tile count and
required furniture list. -/
def ZoneType.requirements (zt : ZoneType) : ZoneRequirements :=
  match zt with
  | .Lobby => { min_tiles := 15, required_furniture := [.ReceptionConsole] }
  | .GuestBedroom => { min_tiles := 12, required_furniture := [.Bed] }
  | .Relaxation => { min_tiles := 20, required_furniture := [] }
  | .Luxury => { min_tiles := 30, required_furniture := [] }
  | .FamilyFun => { min_tiles := 25, required_furniture := [] }
  | .Adventure => { min_tiles := 25, required_furniture := [] }
  | .Culinary => { min_tiles := 20, required_furniture := [] }

/-- Room from components/zone.rs: the tile set of an enclosed area. -/
structure Room where
  tiles : Finset Pos
  deriving DecidableEq

/-- Room::contains_tile. -/
def Room.contains_tile (r : Room) (p : Pos) : Prop :=
  p ∈ r.tiles

instance (r : Room) (p : Pos) : Decidable (r.contains_tile p) := by
  unfold Room.contains_tile; infer_instance

/-- Room::tile_count. -/
def Room.tile_count (r : Room) : ℕ :=
  r.tiles.card

/-- Zone from components/zone.rs. -/
structure Zone where
  zone_type : ZoneType
  tiles : Finset Pos
  quality : ZoneQuality
  name : String
  deriving DecidableEq

/-- Zone::new: empty tile set, quality None. -/
def Zone.new (zt : ZoneType) (name : String) : Zone :=
  { zone_type := zt, tiles := ∅, quality := .None, name := name }

/-- calculate_bedroom_quality from systems/room_detection.rs: rooms below
12 tiles rate None; otherwise the rating steps with the furniture count. -/
def calculate_bedroom_quality (tile_count furniture_count : ℕ) : ZoneQuality :=
  if tile_count < 12 then .None
  else if furniture_count ≤ 1 then .Basic
  else if furniture_count ≤ 3 then .Good
  else if furniture_count ≤ 5 then .Excellent
  else .Luxury

/-- calculate_lobby_quality from systems/room_detection.rs: rooms below 15
tiles rate None; otherwise a combined tile/furniture threshold table. -/
def calculate_lobby_quality (tile_count furniture_count : ℕ) : ZoneQuality :=
  if tile_count < 15 then .None
  else if 40 ≤ tile_count ∧ 5 ≤ furniture_count then .Luxury
  else if 30 ≤ tile_count ∧ 4 ≤ furniture_count then .Excellent
  else if 20 ≤ tile_count ∧ 2 ≤ furniture_count then .Good
  else .Basic

/-- The existing-zones scan of auto_assign_bedroom_zones and
auto_assign_lobby_zones: the first zone of the matching type whose tile
set overlaps the room is updated in place (tiles and quality); the Bool
records whether a zone was found. -/
def update_overlapping_zone (zt : ZoneType) (room : Room) (q : ZoneQuality) :
    List Zone → List Zone × Bool
  | [] => ([], false)
  | z :: rest =>
    if z.zone_type = zt ∧ ∃ t ∈ z.tiles, room.contains_tile t then
      ({ z with tiles := room.tiles, quality := q } :: rest, true)
    else
      let r := update_overlapping_zone zt room q rest
      (z :: r.1, r.2)

/-- auto_assign_bedroom_zones from systems/room_detection.rs.  Rooms are
(entity index, Room); bed_positions are the GridPositions of Bed entities
and furniture_positions those of all Furniture entities.  For each room
containing a bed position, the furniture in the room is counted, the
quality computed, and either the first overlapping GuestBedroom zone is
updated in place or a new zone is spawned.  Spawns go through deferred
commands, so within one run the zone queries see only the zones that
existed when the system started (plus in-place updates); the spawned
zones are appended at the end. -/
def bedroom_zone_step (bed_positions furniture_positions : List Pos)
    (acc : List Zone × List Zone) (ir : ℕ × Room) : List Zone × List Zone :=
  if ∃ b ∈ bed_positions, ir.2.contains_tile b then
    let furniture_in_room :=
      furniture_positions.filter (fun q => decide (ir.2.contains_tile q))
    let quality := calculate_bedroom_quality ir.2.tile_count furniture_in_room.length
    let upd := update_overlapping_zone .GuestBedroom ir.2 quality acc.1
    if upd.2 then (upd.1, acc.2)
    else (upd.1, acc.2 ++
      [{ Zone.new .GuestBedroom ("Guest Bedroom " ++ toString ir.1) with
         tiles := ir.2.tiles, quality := quality }])
  else acc

def auto_assign_bedroom_zones (rooms : List (ℕ × Room)) (bed_positions : List Pos)
    (furniture_positions : List Pos) (zones : List Zone) : List Zone :=
  let result :=
    rooms.foldl (bedroom_zone_step bed_positions furniture_positions) (zones, [])
  result.1 ++ result.2

/-- auto_assign_lobby_zones from systems/room_detection.rs: identical to
the bedroom pass with ReceptionConsole positions, Lobby zones and the
lobby quality table. -/
def lobby_zone_step (console_positions furniture_positions : List Pos)
    (acc : List Zone × List Zone) (ir : ℕ × Room) : List Zone × List Zone :=
  if ∃ c ∈ console_positions, ir.2.contains_tile c then
    let furniture_in_room :=
      furniture_positions.filter (fun q => decide (ir.2.contains_tile q))
    let quality := calculate_lobby_quality ir.2.tile_count furniture_in_room.length
    let upd := update_overlapping_zone .Lobby ir.2 quality acc.1
    if upd.2 then (upd.1, acc.2)
    else (upd.1, acc.2 ++
      [{ Zone.new .Lobby ("Lobby " ++ toString ir.1) with
         tiles := ir.2.tiles, quality := quality }])
  else acc

def auto_assign_lobby_zones (rooms : List (ℕ × Room)) (console_positions : List Pos)
    (furniture_positions : List Pos) (zones : List Zone) : List Zone :=
  let result :=
    rooms.foldl (lobby_zone_step console_positions furniture_positions) (zones, [])
  result.1 ++ result.2

/-- GridSettings from systems/grid.rs (tile_size f32 as a rational). -/
structure GridSettings where
  tile_size : ℚ
  width : ℤ
  height : ℤ

/-- The default GridSettings: 16.0 tile size on a 100 x 100 grid. -/
def GridSettings.default : GridSettings :=
  { tile_size := TILE_SIZE, width := 100, height := 100 }

/-- grid_to_world from systems/grid.rs. -/
def grid_to_world (grid_pos : Pos) (tile_size : ℚ) (grid_width grid_height : ℤ) :
    ℚ × ℚ :=
  ((grid_pos.1 : ℚ) * tile_size - (grid_width : ℚ) * tile_size / 2 + tile_size / 2,
   (grid_pos.2 : ℚ) * tile_size - (grid_height : ℚ) * tile_size / 2 + tile_size / 2)

/-- A pawn as seen by the work systems: entity id, world translation,
CurrentJob.job_id, the Construction and Reception rows of its
WorkAssignments, its StaffingReception component (none when absent) and
its MovementTarget (none when absent). -/
structure Pawn where
  id : ℕ
  pos : ℚ × ℚ
  job_id : Option ℕ
  construction_enabled : Bool
  reception_enabled : Bool
  staffing : Option ℕ
  movement : Option (ℚ × ℚ)
  deriving DecidableEq

/-- assign_reception_staff from systems/work.rs.  For each reception
console (entity id, grid position) that no pawn currently staffs, the
first pawn without a StaffingReception component (the query filter), with
no current job and with Reception enabled, receives a MovementTarget to
the desk's world position and a StaffingReception for that desk.  Both
inserts go through deferred commands: every query in the run sees the
pre-run pawn state, and the collected inserts are applied afterwards in
order, later inserts overwriting earlier ones for the same pawn. -/
def assign_reception_staff (gs : GridSettings) (pawns : List Pawn)
    (consoles : List (ℕ × Pos)) : List Pawn :=
  let cmds := consoles.foldl (fun cmds c =>
    if ∃ p ∈ pawns, p.staffing = some c.1 then cmds
    else
      match pawns.find? (fun p =>
        decide (p.staffing = none) && decide (p.job_id = none) && p.reception_enabled) with
      | none => cmds
      | some p =>
          cmds ++ [(p.id, c.1, grid_to_world c.2 gs.tile_size gs.width gs.height)])
    ([] : List (ℕ × ℕ × (ℚ × ℚ)))
  pawns.map (fun p =>
    cmds.foldl (fun p cmd =>
      if cmd.1 = p.id then
        { p with movement := some cmd.2.2, staffing := some cmd.2.1 }
      else p) p)

/-- ConstructionJob from components/work.rs as seen by the scheduler:
entity id, the GridPosition of its blueprint (none when the blueprint
entity no longer resolves), the assigned pawn and the priority field
(initialised to 5 and never read by the scheduler). -/
structure ConstructionJob where
  id : ℕ
  blueprint_pos : Option Pos
  assigned_pawn : Option ℕ
  priority : ℤ
  deriving DecidableEq

/-- DeconstructionJob from components/work.rs as seen by the scheduler:
entity id, the GridPosition of its marker (none when the marker entity no
longer resolves) and the assigned pawn. -/
structure DeconstructionJob where
  id : ℕ
  marker_pos : Option Pos
  assigned_pawn : Option ℕ
  deriving DecidableEq

/-- The nearest-unassigned-job scan of assign_jobs_to_pawns: iterate the
jobs in query order, skipping assigned jobs and jobs whose blueprint does
not resolve; keep the job whose blueprint world position is strictly
closer than the best so far.  The source compares Euclidean distances; the
model compares squared distances, which orders identically. -/
def find_nearest_job (gs : GridSettings) (pawn_pos : ℚ × ℚ)
    (jobs : List ConstructionJob) : Option (ℕ × ℚ) :=
  jobs.foldl (fun nearest_job job =>
    if job.assigned_pawn.isSome then nearest_job
    else
      match job.blueprint_pos with
      | none => nearest_job
      | some gp =>
        let d := dist2 pawn_pos (grid_to_world gp gs.tile_size gs.width gs.height)
        match nearest_job with
        | none => some (job.id, d)
        | some nd => if d < nd.2 then some (job.id, d) else nearest_job) none

/-- The nearest-unassigned-job scan of assign_deconstruction_jobs_to_pawns,
identical to the construction scan with marker positions. -/
def find_nearest_deconstruction_job (gs : GridSettings) (pawn_pos : ℚ × ℚ)
    (jobs : List DeconstructionJob) : Option (ℕ × ℚ) :=
  jobs.foldl (fun nearest_job job =>
    if job.assigned_pawn.isSome then nearest_job
    else
      match job.marker_pos with
      | none => nearest_job
      | some gp =>
        let d := dist2 pawn_pos (grid_to_world gp gs.tile_size gs.width gs.height)
        match nearest_job with
        | none => some (job.id, d)
        | some nd => if d < nd.2 then some (job.id, d) else nearest_job) none

/-- One pawn step of assign_jobs_to_pawns: a pawn with a current job or
without Construction enabled is skipped; otherwise the nearest unassigned
job is selected and the assignment is written immediately (the job's
assigned_pawn and the pawn's job_id) together with a MovementTarget to the
blueprint's world position, before the next pawn is processed. -/
def construction_assign_step (gs : GridSettings)
    (acc : List Pawn × List ConstructionJob) (pawn : Pawn) :
    List Pawn × List ConstructionJob :=
  if pawn.job_id.isSome then (acc.1 ++ [pawn], acc.2)
  else if ¬ pawn.construction_enabled then (acc.1 ++ [pawn], acc.2)
  else
    match find_nearest_job gs pawn.pos acc.2 with
    | none => (acc.1 ++ [pawn], acc.2)
    | some nd =>
      let js := acc.2.map (fun j =>
        if j.id = nd.1 then { j with assigned_pawn := some pawn.id } else j)
      let target := (js.find? (fun j => decide (j.id = nd.1))).bind
        (fun j => j.blueprint_pos)
      (acc.1 ++ [({ pawn with
        job_id := some nd.1,
        movement :=
          (match target with
           | some gp => some (grid_to_world gp gs.tile_size gs.width gs.height)
           | none => pawn.movement) } : Pawn)], js)

/-- assign_jobs_to_pawns from systems/work.rs: fold the step over the
pawns in query order. -/
def assign_jobs_to_pawns (gs : GridSettings) (pawns : List Pawn)
    (jobs : List ConstructionJob) : List Pawn × List ConstructionJob :=
  pawns.foldl (construction_assign_step gs) ([], jobs)

/-- One pawn step of assign_deconstruction_jobs_to_pawns, identical to the
construction step (deconstruction uses the same Construction skill) with
marker positions. -/
def deconstruction_assign_step (gs : GridSettings)
    (acc : List Pawn × List DeconstructionJob) (pawn : Pawn) :
    List Pawn × List DeconstructionJob :=
  if pawn.job_id.isSome then (acc.1 ++ [pawn], acc.2)
  else if ¬ pawn.construction_enabled then (acc.1 ++ [pawn], acc.2)
  else
    match find_nearest_deconstruction_job gs pawn.pos acc.2 with
    | none => (acc.1 ++ [pawn], acc.2)
    | some nd =>
      let js := acc.2.map (fun j =>
        if j.id = nd.1 then { j with assigned_pawn := some pawn.id } else j)
      let target := (js.find? (fun j => decide (j.id = nd.1))).bind
        (fun j => j.marker_pos)
      (acc.1 ++ [({ pawn with
        job_id := some nd.1,
        movement :=
          (match target with
           | some gp => some (grid_to_world gp gs.tile_size gs.width gs.height)
           | none => pawn.movement) } : Pawn)], js)

/-- assign_deconstruction_jobs_to_pawns from systems/work.rs: fold the
step over the pawns in query order. -/
def assign_deconstruction_jobs_to_pawns (gs : GridSettings) (pawns : List Pawn)
    (jobs : List DeconstructionJob) : List Pawn × List DeconstructionJob :=
  pawns.foldl (deconstruction_assign_step gs) ([], jobs)

/-- Soundness of one construction scheduler pass: pawn-side and job-side
assignments agree pairwise, no job is held by two pawns, no pawn holds two
jobs, and every pawn's job is at minimal squared world distance among the
jobs left unassigned at the end of the pass (a subset of the jobs that
were unassigned when that pawn was processed). -/
def construction_pass_sound (gs : GridSettings) (ps : List Pawn)
    (js : List ConstructionJob) : Prop :=
  (∀ p ∈ ps, ∀ jid, p.job_id = some jid →
    ∃ j ∈ js, j.id = jid ∧ j.assigned_pawn = some p.id) ∧
  (∀ j ∈ js, ∀ pid, j.assigned_pawn = some pid →
    ∃ p ∈ ps, p.id = pid ∧ p.job_id = some j.id) ∧
  (∀ p1 ∈ ps, ∀ p2 ∈ ps, ∀ jid, p1.job_id = some jid → p2.job_id = some jid →
    p1.id = p2.id) ∧
  (∀ j1 ∈ js, ∀ j2 ∈ js, ∀ pid, j1.assigned_pawn = some pid →
    j2.assigned_pawn = some pid → j1.id = j2.id) ∧
  (∀ p ∈ ps, ∀ jid, p.job_id = some jid →
    ∃ j ∈ js, j.id = jid ∧ ∃ gp, j.blueprint_pos = some gp ∧
      ∀ j2 ∈ js, j2.assigned_pawn = none → ∀ gp2, j2.blueprint_pos = some gp2 →
        dist2 p.pos (grid_to_world gp gs.tile_size gs.width gs.height) ≤
          dist2 p.pos (grid_to_world gp2 gs.tile_size gs.width gs.height))

/-- Soundness of one deconstruction scheduler pass, mirror of the
construction statement with marker positions. -/
def deconstruction_pass_sound (gs : GridSettings) (ps : List Pawn)
    (js : List DeconstructionJob) : Prop :=
  (∀ p ∈ ps, ∀ jid, p.job_id = some jid →
    ∃ j ∈ js, j.id = jid ∧ j.assigned_pawn = some p.id) ∧
  (∀ j ∈ js, ∀ pid, j.assigned_pawn = some pid →
    ∃ p ∈ ps, p.id = pid ∧ p.job_id = some j.id) ∧
  (∀ p1 ∈ ps, ∀ p2 ∈ ps, ∀ jid, p1.job_id = some jid → p2.job_id = some jid →
    p1.id = p2.id) ∧
  (∀ j1 ∈ js, ∀ j2 ∈ js, ∀ pid, j1.assigned_pawn = some pid →
    j2.assigned_pawn = some pid → j1.id = j2.id) ∧
  (∀ p ∈ ps, ∀ jid, p.job_id = some jid →
    ∃ j ∈ js, j.id = jid ∧ ∃ gp, j.marker_pos = some gp ∧
      ∀ j2 ∈ js, j2.assigned_pawn = none → ∀ gp2, j2.marker_pos = some gp2 →
        dist2 p.pos (grid_to_world gp gs.tile_size gs.width gs.height) ≤
          dist2 p.pos (grid_to_world gp2 gs.tile_size gs.width gs.height))

/-- The in-bounds test applied to each neighbor in flood_fill_room
(neighbor.x and neighbor.y within 0..width and 0..height). -/
def in_bounds (gs : GridSettings) (p : Pos) : Prop :=
  0 ≤ p.1 ∧ p.1 < gs.width ∧ 0 ≤ p.2 ∧ p.2 < gs.height

instance (gs : GridSettings) (p : Pos) : Decidable (in_bounds gs p) := by
  unfold in_bounds; infer_instance

/-- The map-edge test of flood_fill_room: x at most 0 or at least width-1,
or y at most 0 or at least height-1 (within the grid this is exactly the
outermost ring). -/
def on_ring (gs : GridSettings) (p : Pos) : Prop :=
  p.1 ≤ 0 ∨ gs.width - 1 ≤ p.1 ∨ p.2 ≤ 0 ∨ gs.height - 1 ≤ p.2

instance (gs : GridSettings) (p : Pos) : Decidable (on_ring gs p) := by
  unfold on_ring; infer_instance

/-- The four neighbors checked by flood_fill_room, in source order. -/
def neighbors4 (p : Pos) : List Pos :=
  [(p.1 + 1, p.2), (p.1 - 1, p.2), (p.1, p.2 + 1), (p.1, p.2 - 1)]

/-- A tile the room flood fill can stand on: inside the grid, not occupied
(occupied set or walls) and not a door tile. -/
def free_tile (m : BuildingMap) (gs : GridSettings) (p : Pos) : Prop :=
  in_bounds gs p ∧ ¬ m.is_occupied p ∧ p ∉ m.doors

instance (m : BuildingMap) (gs : GridSettings) (p : Pos) :
    Decidable (free_tile m gs p) := by
  unfold free_tile; infer_instance

/-- One free tile stepping to an adjacent free tile. -/
def adj_free (m : BuildingMap) (gs : GridSettings) (a b : Pos) : Prop :=
  free_tile m gs a ∧ free_tile m gs b ∧ b ∈ neighbors4 a

/-- Connectivity through free tiles: the reflexive transitive closure of
free adjacency.  For a free tile p, the set of free tiles reachable from p
is the maximal 4-connected open region containing p. -/
def ReachFree (m : BuildingMap) (gs : GridSettings) : Pos → Pos → Prop :=
  Relation.ReflTransGen (adj_free m gs)

/-- The finite set of all grid tiles. -/
def gridFinset (gs : GridSettings) : Finset Pos :=
  (Finset.range gs.width.toNat ×ˢ Finset.range gs.height.toNat).image
    (fun q => ((q.1 : ℤ), (q.2 : ℤ)))

/-- The BFS loop of flood_fill_room, with explicit fuel standing in for the
while-let loop (a fuel-sufficiency lemma shows the chosen fuel can never
run out).  The queue is popped from the front and pushed at the back as
with the source VecDeque; a popped visited tile is skipped; otherwise the
edge test may clear is_enclosed, the tile enters visited and room_tiles,
and the unvisited, in-bounds, unoccupied, non-door neighbors are pushed. -/
def flood_fill_loop (m : BuildingMap) (gs : GridSettings) :
    ℕ → List Pos → Finset Pos → Finset Pos → Bool →
      Option (Finset Pos × Finset Pos × Bool)
  | _, [], visited, room_tiles, is_enclosed => some (room_tiles, visited, is_enclosed)
  | 0, _ :: _, _, _, _ => none
  | fuel + 1, pos :: queue, visited, room_tiles, is_enclosed =>
    if pos ∈ visited then
      flood_fill_loop m gs fuel queue visited room_tiles is_enclosed
    else
      let is_enclosed2 := if on_ring gs pos then false else is_enclosed
      let visited2 := insert pos visited
      let room2 := insert pos room_tiles
      let pushes := (neighbors4 pos).filter (fun n =>
        decide (in_bounds gs n) && decide (n ∉ visited2) &&
        decide (¬ m.is_occupied n) && decide (n ∉ m.doors))
      flood_fill_loop m gs fuel (queue ++ pushes) visited2 room2 is_enclosed2

/-- flood_fill_room from systems/room_detection.rs: BFS from start_pos over
the shared visited set; returns (room_tiles, updated visited, is_enclosed).
The source returns Some(room_tiles) when enclosed and None otherwise while
mutating visited in place; the triple carries both pieces explicitly. -/
def flood_fill_room (start_pos : Pos) (m : BuildingMap) (gs : GridSettings)
    (visited : Finset Pos) : Option (Finset Pos × Finset Pos × Bool) :=
  flood_fill_loop m gs (5 * (gs.width.toNat * gs.height.toNat) + 1)
    [start_pos] visited ∅ true

/-- find_enclosed_rooms from systems/room_detection.rs: scan every tile in
raster order (y outer, x inner); skip tiles already visited, occupied or
holding a door; flood fill from the rest, keeping regions that are
enclosed and have at least 4 tiles.  The fuel-exhaustion branch of the
model is unreachable (the fill lemmas discharge it) and leaves the
accumulator unchanged. -/
def find_enclosed_rooms (m : BuildingMap) (gs : GridSettings) : List (Finset Pos) :=
  let scan := (List.range gs.height.toNat).flatMap (fun y =>
    (List.range gs.width.toNat).map (fun x => (((x : ℕ) : ℤ), ((y : ℕ) : ℤ))))
  (scan.foldl (fun acc pos =>
    if pos ∈ acc.1 ∨ m.is_occupied pos ∨ pos ∈ m.doors then acc
    else
      match flood_fill_room pos m gs acc.1 with
      | some (room_tiles, visited2, true) =>
          if 4 ≤ room_tiles.card then (visited2, acc.2 ++ [room_tiles])
          else (visited2, acc.2)
      | some (room_tiles, visited2, false) => (visited2, acc.2)
      | none => acc) ((∅ : Finset Pos), ([] : List (Finset Pos)))).2

/-- The body of find_enclosed_rooms' scan loop as a named function, for the
fold lemmas. -/
def room_scan_step (m : BuildingMap) (gs : GridSettings)
    (acc : Finset Pos × List (Finset Pos)) (pos : Pos) :
    Finset Pos × List (Finset Pos) :=
  if pos ∈ acc.1 ∨ m.is_occupied pos ∨ pos ∈ m.doors then acc
  else
    match flood_fill_room pos m gs acc.1 with
    | some (room_tiles, visited2, true) =>
        if 4 ≤ room_tiles.card then (visited2, acc.2 ++ [room_tiles])
        else (visited2, acc.2)
    | some (room_tiles, visited2, false) => (visited2, acc.2)
    | none => acc

/-- The raster scan order of find_enclosed_rooms: y outer, x inner. -/
def scanList (gs : GridSettings) : List Pos :=
  (List.range gs.height.toNat).flatMap (fun y =>
    (List.range gs.width.toNat).map (fun x => (((x : ℕ) : ℤ), ((y : ℕ) : ℤ))))

/-- The invariant carried by find_enclosed_rooms' scan accumulator: visited
tiles are free, visited is a union of whole 4-connected free regions, every
recorded room is an enclosed free region of at least 4 tiles, and every
qualifying region with a visited representative has been recorded. -/
def roomInv (m : BuildingMap) (gs : GridSettings)
    (acc : Finset Pos × List (Finset Pos)) : Prop :=
  (∀ t ∈ acc.1, free_tile m gs t) ∧
  (∀ t ∈ acc.1, ∀ n, free_tile m gs n → ReachFree m gs t n → n ∈ acc.1) ∧
  (∀ R ∈ acc.2, ∃ p, free_tile m gs p ∧
    (∀ q, q ∈ R ↔ free_tile m gs q ∧ ReachFree m gs p q) ∧
    4 ≤ R.card ∧ ∀ q ∈ R, ¬ on_ring gs q) ∧
  (∀ t ∈ acc.1, ∀ R : Finset Pos,
    (∀ q, q ∈ R ↔ free_tile m gs q ∧ ReachFree m gs t q) →
    4 ≤ R.card → (∀ q ∈ R, ¬ on_ring gs q) → R ∈ acc.2)

end Resort

open Resort

lemma mem_foldl_finset_insert (s : Finset Pos) (ts : List Pos) (a : Pos) :
    a ∈ ts.foldl (fun s t => insert t s) s ↔ a ∈ s ∨ a ∈ ts := by
  induction ts generalizing s with
  | nil => simp
  | cons t rest ih =>
      simp only [List.foldl_cons, ih, Finset.mem_insert, List.mem_cons]
      tauto

lemma mem_foldl_finset_erase (s : Finset Pos) (ts : List Pos) (a : Pos) :
    a ∈ ts.foldl (fun s t => s.erase t) s ↔ a ∈ s ∧ a ∉ ts := by
  induction ts generalizing s with
  | nil => simp
  | cons t rest ih =>
      simp only [List.foldl_cons, ih, Finset.mem_erase, List.mem_cons]
      tauto

lemma foldl_insert_doors_spec (m : BuildingMap) (ts : List Pos) :
    ts.foldl (fun mm t => { mm with doors := insert t mm.doors }) m =
      { m with doors := ts.foldl (fun s t => insert t s) m.doors } := by
  induction ts generalizing m with
  | nil => rfl
  | cons t rest ih => simp [List.foldl_cons, ih]

lemma foldl_insert_occupied_spec (m : BuildingMap) (ts : List Pos) :
    ts.foldl (fun mm t => { mm with occupied := insert t mm.occupied }) m =
      { m with occupied := ts.foldl (fun s t => insert t s) m.occupied } := by
  induction ts generalizing m with
  | nil => rfl
  | cons t rest ih => simp [List.foldl_cons, ih]

lemma remove_wall_at_doors (m : BuildingMap) (t : Pos) :
    (remove_wall_at m t).doors = m.doors := by
  unfold remove_wall_at; split <;> rfl

lemma remove_wall_at_floors (m : BuildingMap) (t : Pos) :
    (remove_wall_at m t).floors = m.floors := by
  unfold remove_wall_at; split <;> rfl

lemma remove_wall_at_occupied_subset (m : BuildingMap) (t : Pos) :
    (remove_wall_at m t).occupied ⊆ m.occupied := by
  unfold remove_wall_at; split
  · exact Finset.erase_subset _ _
  · exact fun a ha => ha

lemma foldl_remove_wall_doors (m : BuildingMap) (ts : List Pos) :
    (ts.foldl remove_wall_at m).doors = m.doors := by
  induction ts generalizing m with
  | nil => rfl
  | cons t rest ih => rw [List.foldl_cons, ih, remove_wall_at_doors]

lemma foldl_remove_wall_occupied_subset (m : BuildingMap) (ts : List Pos) :
    (ts.foldl remove_wall_at m).occupied ⊆ m.occupied := by
  induction ts generalizing m with
  | nil => exact fun a ha => ha
  | cons t rest ih =>
      rw [List.foldl_cons]
      exact fun a ha => remove_wall_at_occupied_subset m t (ih (remove_wall_at m t) ha)

lemma foldl_remove_wall_guard (ts : List Pos) (m : BuildingMap) (t : Pos)
    (ht : t ∈ ts) (hg : t ∈ m.occupied → t ∈ m.walls) :
    t ∉ (ts.foldl remove_wall_at m).occupied := by
  induction ts generalizing m with
  | nil => cases ht
  | cons t0 rest ih =>
      rw [List.foldl_cons]
      rcases List.mem_cons.mp ht with rfl | hrest
      · -- t is the head: it leaves occupied at this step (or was never there)
        intro hmem
        have hsub := foldl_remove_wall_occupied_subset (remove_wall_at m t) rest
        have h1 : t ∈ (remove_wall_at m t).occupied := hsub hmem
        unfold remove_wall_at at h1
        by_cases hw : t ∈ m.walls
        · simp [hw] at h1
        · simp [hw] at h1
          exact hw (hg h1)
      · -- t occurs later: the head step preserves the guard for t
        apply ih (remove_wall_at m t0) hrest
        intro hocc
        have hocc0 : t ∈ m.occupied := remove_wall_at_occupied_subset m t0 hocc
        have hw0 : t ∈ m.walls := hg hocc0
        unfold remove_wall_at at hocc ⊢
        by_cases hcase : t0 ∈ m.walls
        · simp [hcase] at hocc ⊢
          exact ⟨hocc.1, hw0⟩
        · simp [hcase]
          exact hw0

lemma doors_disjoint_applyOp (m : BuildingMap) (op : Op)
    (hm : doors_disjoint m)
    (hop : ∀ p, op = Op.placeWall p → p ∉ m.doors) :
    doors_disjoint (applyOp m op) := by
  cases op with
  | placeWall p =>
      have hp : p ∉ m.doors := hop p rfl
      intro d hd hocc
      unfold applyOp place_wall_tile at hd hocc
      by_cases hc : p ∈ m.occupied
      · simp only [if_pos hc] at hd hocc
        exact hm d hd hocc
      · simp only [if_neg hc] at hd hocc
        simp only [Finset.mem_insert] at hocc
        rcases hocc with rfl | hocc
        · exact hp hd
        · exact hm d hd hocc
  | placeFloor p =>
      intro d hd hocc
      unfold applyOp place_floor_tile at hd hocc
      by_cases hc : p ∈ m.occupied
      · simp only [if_pos hc] at hd hocc
        exact hm d hd hocc
      · simp only [if_neg hc] at hd hocc
        exact hm d hd hocc
  | placeDoor p o =>
      intro d hd hocc
      unfold applyOp place_door at hd hocc
      by_cases hc : ∀ t ∈ Door.tiles_occupied o p,
          t ∉ m.doors ∧ ¬(t ∈ m.occupied ∧ t ∉ m.walls)
      · simp only [if_pos hc] at hd hocc
        rw [foldl_insert_doors_spec] at hd hocc
        simp only at hd hocc
        rw [mem_foldl_finset_insert] at hd
        rw [foldl_remove_wall_doors] at hd
        rcases hd with hd | hd
        · -- d was already a door tile; occupied only shrank
          exact hm d hd (foldl_remove_wall_occupied_subset m _ hocc)
        · -- d is a new door tile; the guard plus wall removal freed it
          have := (hc d hd).2
          exact foldl_remove_wall_guard _ m d hd (by tauto) hocc
      · simp only [if_neg hc] at hd hocc
        exact hm d hd hocc
  | placeWindow p =>
      intro d hd hocc
      unfold applyOp place_window at hd hocc
      by_cases hc : (p ∈ m.occupied ∧ p ∉ m.walls) ∨ p ∈ m.doors
      · simp only [if_pos hc] at hd hocc
        exact hm d hd hocc
      · simp only [if_neg hc] at hd hocc
        have hpd : p ∉ m.doors := fun h => hc (Or.inr h)
        rw [remove_wall_at_doors] at hd
        simp only [Finset.mem_insert] at hocc
        rcases hocc with rfl | hocc
        · exact hpd hd
        · exact hm d hd (remove_wall_at_occupied_subset m p hocc)
  | placeFurniture ft o p =>
      intro d hd hocc
      unfold applyOp place_furniture at hd hocc
      by_cases hc : ∀ t ∈ ft.tiles_occupied p o,
          t ∈ m.floors ∧ t ∉ m.occupied ∧ t ∉ m.doors
      · simp only [if_pos hc] at hd hocc
        rw [foldl_insert_occupied_spec] at hd hocc
        simp only at hd hocc
        rw [mem_foldl_finset_insert] at hocc
        rcases hocc with hocc | hocc
        · exact hm d hd hocc
        · exact (hc d hocc).2.2 hd
      · simp only [if_neg hc] at hd hocc
        exact hm d hd hocc
  | completeWall p =>
      intro d hd hocc
      unfold applyOp complete_wall_blueprint at hd hocc
      exact hm d hd hocc
  | deconWall p =>
      intro d hd hocc
      unfold applyOp complete_deconstruction_wall at hd hocc
      exact hm d hd (Finset.erase_subset _ _ hocc)
  | deconDoor p o =>
      intro d hd hocc
      unfold applyOp complete_deconstruction_door at hd hocc
      rw [mem_foldl_finset_erase] at hd
      exact hm d hd.1 hocc
  | deconFurniture p =>
      intro d hd hocc
      unfold applyOp complete_deconstruction_furniture at hd hocc
      rw [mem_foldl_finset_erase] at hocc
      exact hm d hd hocc.1
  | deconOther p =>
      intro d hd hocc
      unfold applyOp complete_deconstruction_other at hd hocc
      exact hm d hd (Finset.erase_subset _ _ hocc)

lemma doors_disjoint_runOps (ops : List Op) (m : BuildingMap)
    (hm : doors_disjoint m) (hs : wall_safe m ops = true) :
    doors_disjoint (runOps m ops) := by
  induction ops generalizing m with
  | nil => exact hm
  | cons op rest ih =>
      unfold wall_safe at hs
      rw [Bool.and_eq_true] at hs
      refine ih (applyOp m op) (doors_disjoint_applyOp m op hm ?_) hs.2
      intro p hp
      subst hp
      exact of_decide_eq_true hs.1

lemma work_tick_required (pawn_pos blueprint_pos : ℚ × ℚ) (dt : ℚ)
    (bp : Blueprint) :
    (work_on_blueprint_tick pawn_pos blueprint_pos dt bp).work_required =
      bp.work_required := by
  unfold work_on_blueprint_tick; split <;> rfl

lemma run_work_required (blueprint_pos : ℚ × ℚ) (bp : Blueprint)
    (ticks : List ((ℚ × ℚ) × ℚ)) :
    (run_work blueprint_pos bp ticks).work_required = bp.work_required := by
  induction ticks generalizing bp with
  | nil => rfl
  | cons t rest ih =>
      unfold run_work at ih ⊢
      rw [List.foldl_cons, ih, work_tick_required]

lemma run_work_bounds (blueprint_pos : ℚ × ℚ) (bp : Blueprint)
    (ticks : List ((ℚ × ℚ) × ℚ)) (hdt : ∀ t ∈ ticks, 0 ≤ t.2)
    (h0 : 0 ≤ bp.work_done) (h1 : bp.work_done ≤ bp.work_required) :
    0 ≤ (run_work blueprint_pos bp ticks).work_done ∧
      (run_work blueprint_pos bp ticks).work_done ≤ bp.work_required := by
  induction ticks generalizing bp with
  | nil => exact ⟨h0, h1⟩
  | cons t rest ih =>
      unfold run_work at ih ⊢
      rw [List.foldl_cons]
      have hreq : 0 ≤ bp.work_required := le_trans h0 h1
      have hd : (0 : ℚ) ≤ t.2 := hdt t (List.mem_cons_self t rest)
      have hrest : ∀ s ∈ rest, 0 ≤ s.2 := fun s hs => hdt s (List.mem_cons_of_mem t hs)
      unfold work_on_blueprint_tick
      split
      · have hres := ih
          { bp with work_done := min (bp.work_done + 50 * t.2) bp.work_required }
          hrest
          (by
            simp only [le_min_iff]
            constructor
            · positivity
            · exact hreq)
          (by simp only [min_le_iff]; right; exact le_refl _)
        simpa using hres
      · exact ih bp hrest h0 h1

lemma work_tick_within (pawn_pos blueprint_pos : ℚ × ℚ) (dt : ℚ)
    (bp : Blueprint) (h : dist2 pawn_pos blueprint_pos < (TILE_SIZE * 3) ^ 2) :
    work_on_blueprint_tick pawn_pos blueprint_pos dt bp =
      { bp with work_done := min (bp.work_done + 50 * dt) bp.work_required } := by
  unfold work_on_blueprint_tick
  rw [if_pos h]

lemma run_work_accumulates (blueprint_pos : ℚ × ℚ) (bp : Blueprint)
    (ticks : List ((ℚ × ℚ) × ℚ)) (s : ℚ)
    (hdt : ∀ t ∈ ticks, 0 ≤ t.2)
    (hin : ∀ t ∈ ticks, dist2 t.1 blueprint_pos < (TILE_SIZE * 3) ^ 2)
    (hw : bp.work_done = min (50 * s) bp.work_required) :
    (run_work blueprint_pos bp ticks).work_done =
      min (50 * (s + (ticks.map (fun t => t.2)).sum)) bp.work_required := by
  induction ticks generalizing bp s with
  | nil => simpa using hw
  | cons t rest ih =>
      unfold run_work at ih ⊢
      simp only [List.foldl_cons]
      rw [work_tick_within t.1 blueprint_pos t.2 bp (hin t (List.mem_cons_self t rest))]
      have hd : (0 : ℚ) ≤ t.2 := hdt t (List.mem_cons_self t rest)
      have hrest : ∀ u ∈ rest, 0 ≤ u.2 := fun u hu => hdt u (List.mem_cons_of_mem t hu)
      have hinrest : ∀ u ∈ rest, dist2 u.1 blueprint_pos < (TILE_SIZE * 3) ^ 2 :=
        fun u hu => hin u (List.mem_cons_of_mem t hu)
      have hstep :
          min (bp.work_done + 50 * t.2) bp.work_required =
            min (50 * (s + t.2)) bp.work_required := by
        rw [hw]
        rcases le_total (50 * s) bp.work_required with hc | hc
        · rw [min_eq_left hc, mul_add]
        · have h2 : bp.work_required ≤ 50 * (s + t.2) := by nlinarith
          rw [min_eq_right hc,
            min_eq_right (by linarith : bp.work_required ≤ bp.work_required + 50 * t.2),
            min_eq_right h2]
      rw [hstep]
      have hres := ih { bp with work_done := min (50 * (s + t.2)) bp.work_required }
        (s + t.2) hrest hinrest (by simp)
      rw [hres]
      simp only [List.map_cons, List.sum_cons]
      ring_nf

lemma gridPointLe_trans (a b c : GridPoint) (h1 : a.le b) (h2 : b.le c) :
    a.le c := by
  unfold GridPoint.le at h1 h2 ⊢
  rcases h1 with h1 | ⟨h1, h1y⟩ <;> rcases h2 with h2 | ⟨h2, h2y⟩
  · exact Or.inl (lt_trans h1 h2)
  · exact Or.inl (h2 ▸ h1)
  · exact Or.inl (h1 ▸ h2)
  · exact Or.inr ⟨h1.trans h2, h1y.trans h2y⟩

lemma gridPointLe_total (a b : GridPoint) : a.le b ∨ b.le a := by
  unfold GridPoint.le
  rcases lt_trichotomy a.x b.x with h | h | h
  · exact Or.inl (Or.inl h)
  · rcases Int.le_total a.y b.y with hy | hy
    · exact Or.inl (Or.inr ⟨h, hy⟩)
    · exact Or.inr (Or.inr ⟨h.symm, hy⟩)
  · exact Or.inr (Or.inl h)

/-- C1 counterexample: placing a door at (5,5) and then a wall at (5,5)
(wall placement checks only the occupied set, not doors) produces a
reachable state in which (5,5) is simultaneously in doors and in occupied,
refuting the claimed invariant. -/
theorem c1_counterexample :
    (5, 5) ∈ (runOps BuildingMap.empty
      [.placeDoor (5, 5) .Horizontal, .placeWall (5, 5)]).doors ∧
    (5, 5) ∈ (runOps BuildingMap.empty
      [.placeDoor (5, 5) .Horizontal, .placeWall (5, 5)]).occupied := by
  decide

/-- C1 (amended): for every state reachable from the empty map by
placement, job-completion and deconstruction operations, every tile in
doors is absent from occupied, provided no wall placement in the sequence
targets a tile that is currently a door tile (wall placement validates
only against occupied and otherwise breaks the invariant). -/
theorem c1_doors_disjoint_occupied (ops : List Op)
    (hs : wall_safe BuildingMap.empty ops = true) :
    ∀ p ∈ (runOps BuildingMap.empty ops).doors,
      p ∉ (runOps BuildingMap.empty ops).occupied := by
  exact doors_disjoint_runOps ops BuildingMap.empty (by intro p hp; cases hp) hs

/-- Witness for C1 (amended) at a concrete wall-safe operation sequence. -/
theorem c1_doors_disjoint_occupied_witness :
    wall_safe BuildingMap.empty
      [.placeDoor (2, 2) .Horizontal, .placeWall (9, 9)] = true ∧
    (2, 2) ∉ (runOps BuildingMap.empty
      [.placeDoor (2, 2) .Horizontal, .placeWall (9, 9)]).occupied :=
  ⟨by decide,
   c1_doors_disjoint_occupied
     [.placeDoor (2, 2) .Horizontal, .placeWall (9, 9)] (by decide)
     (2, 2) (by decide)⟩

/-- C4: at any grid position where wall placement is accepted (the tile is
not in occupied; in every state the running program reaches, walls is a
subset of occupied, so the tile is then not in walls either), placing the
wall, completing its blueprint and completing its deconstruction restores
the membership of that position in occupied, walls, doors and floors. -/
theorem c4_wall_roundtrip (m : BuildingMap) (p : Pos)
    (hocc : p ∉ m.occupied) (hwall : p ∉ m.walls) :
    ((p ∈ (complete_deconstruction_wall
        (complete_wall_blueprint (place_wall_tile m p) p) p).occupied ↔
      p ∈ m.occupied) ∧
     (p ∈ (complete_deconstruction_wall
        (complete_wall_blueprint (place_wall_tile m p) p) p).walls ↔
      p ∈ m.walls) ∧
     (p ∈ (complete_deconstruction_wall
        (complete_wall_blueprint (place_wall_tile m p) p) p).doors ↔
      p ∈ m.doors) ∧
     (p ∈ (complete_deconstruction_wall
        (complete_wall_blueprint (place_wall_tile m p) p) p).floors ↔
      p ∈ m.floors)) := by
  unfold place_wall_tile complete_wall_blueprint complete_deconstruction_wall
  simp only [if_neg hocc]
  simp [Finset.erase_insert hocc, Finset.insert_idem, Finset.erase_insert hwall,
    hocc, hwall]

/-- Witness for C4 at a concrete map and position. -/
theorem c4_wall_roundtrip_witness :
    ((3 : ℤ), (4 : ℤ)) ∉ (BuildingMap.empty).occupied ∧
    ((3 : ℤ), (4 : ℤ)) ∉ (BuildingMap.empty).walls ∧
    (((3 : ℤ), (4 : ℤ)) ∈ (complete_deconstruction_wall
        (complete_wall_blueprint (place_wall_tile BuildingMap.empty (3, 4)) (3, 4))
        (3, 4)).occupied ↔
      ((3 : ℤ), (4 : ℤ)) ∈ (BuildingMap.empty).occupied) :=
  ⟨by decide, by decide,
   (c4_wall_roundtrip BuildingMap.empty (3, 4) (by decide) (by decide)).1⟩

/-- C2 (code bug witness): deconstructing a Single bed placed at (5,5)
with East orientation (footprint 2 wide by 3 tall, six tiles) removes only
the fixed 2x2 block, leaving footprint tiles (5,7) and (6,7) still in
occupied, contrary to the full-footprint removal the claim describes. -/
theorem c2_furniture_decon_partial :
    ((5 : ℤ), (7 : ℤ)) ∈ FurnitureType.tiles_occupied (.Bed .Single) (5, 5) .East ∧
    ((5 : ℤ), (7 : ℤ)) ∈ (complete_deconstruction_furniture
      { occupied := (FurnitureType.tiles_occupied (.Bed .Single) (5, 5) .East).toFinset,
        walls := ∅, doors := ∅, floors := ∅ } (5, 5)).occupied ∧
    ((6 : ℤ), (7 : ℤ)) ∈ (complete_deconstruction_furniture
      { occupied := (FurnitureType.tiles_occupied (.Bed .Single) (5, 5) .East).toFinset,
        walls := ∅, doors := ∅, floors := ∅ } (5, 5)).occupied := by
  decide

/-- C5: for any blueprint and any tick sequence with nonnegative dt,
work_done stays within [0, work_required]; and a Wall blueprint
(work_required = 100) with the pawn inside the interaction radius
(3 tile-widths) on every tick accumulates exactly min(50 * total time,
100), hence exactly 100 work units once the dts sum to 2.0 seconds. -/
theorem c5_blueprint_work_clamped (bt : BlueprintType) (blueprint_pos : ℚ × ℚ)
    (ticks : List ((ℚ × ℚ) × ℚ)) (hdt : ∀ t ∈ ticks, 0 ≤ t.2) :
    (0 ≤ (run_work blueprint_pos (Blueprint.new bt) ticks).work_done ∧
     (run_work blueprint_pos (Blueprint.new bt) ticks).work_done ≤
       (run_work blueprint_pos (Blueprint.new bt) ticks).work_required) ∧
    ((∀ t ∈ ticks, dist2 t.1 blueprint_pos < (TILE_SIZE * 3) ^ 2) →
     (ticks.map (fun t => t.2)).sum = 2 →
     bt = BlueprintType.Wall →
     (run_work blueprint_pos (Blueprint.new bt) ticks).work_done = 100) := by
  have hreq0 : (0 : ℚ) ≤ (Blueprint.new bt).work_required := by
    cases bt <;> norm_num [Blueprint.new]
  have hdone : (Blueprint.new bt).work_done = 0 := rfl
  constructor
  · rw [run_work_required]
    exact run_work_bounds blueprint_pos (Blueprint.new bt) ticks hdt
      (by rw [hdone]) (by rw [hdone]; exact hreq0)
  · intro hin hsum hbt
    subst hbt
    have hacc := run_work_accumulates blueprint_pos (Blueprint.new .Wall) ticks 0
      hdt hin (by norm_num [Blueprint.new])
    rw [hacc, hsum]
    norm_num [Blueprint.new]

/-- Witness for C5 at a concrete tick sequence: two one-second ticks with
the pawn standing on the blueprint reach exactly 100 work units. -/
theorem c5_blueprint_work_clamped_witness :
    (∀ t ∈ [(((0 : ℚ), (0 : ℚ)), (1 : ℚ)), (((0 : ℚ), (0 : ℚ)), (1 : ℚ))], 0 ≤ t.2) ∧
    (run_work (0, 0) (Blueprint.new .Wall)
      [(((0 : ℚ), (0 : ℚ)), (1 : ℚ)), (((0 : ℚ), (0 : ℚ)), (1 : ℚ))]).work_done = 100 :=
  ⟨by norm_num,
   (c5_blueprint_work_clamped .Wall (0, 0)
      [(((0 : ℚ), (0 : ℚ)), (1 : ℚ)), (((0 : ℚ), (0 : ℚ)), (1 : ℚ))]
      (by norm_num)).2 (by norm_num [dist2, TILE_SIZE]) (by norm_num) rfl⟩

/-- C8: attempting to place a ReceptionConsole at a grid position not
covered by any Desk's 2x2 footprint is a no-op: no console is spawned, the
BuildingMap is unchanged, and the money balance is unchanged. -/
theorem c8_console_requires_desk (desk_positions : List Pos) (m : BuildingMap)
    (money : Money) (p : Pos)
    (h : ¬ ∃ d ∈ desk_positions, p ∈ desk_tiles d) :
    place_reception_console desk_positions m money p = (m, money, false) := by
  unfold place_reception_console
  rw [if_neg h]

/-- Witness for C8: one desk at (0,0) and a click at (50,50). -/
theorem c8_console_requires_desk_witness :
    (¬ ∃ d ∈ [((0 : ℤ), (0 : ℤ))], ((50 : ℤ), (50 : ℤ)) ∈ desk_tiles d) ∧
    place_reception_console [((0 : ℤ), (0 : ℤ))] BuildingMap.empty
      { amount := 10000 } (50, 50) =
      (BuildingMap.empty, { amount := 10000 }, false) :=
  ⟨by decide,
   c8_console_requires_desk [((0 : ℤ), (0 : ℤ))] BuildingMap.empty
     { amount := 10000 } (50, 50) (by decide)⟩

/-- C9: for any collected save data, every list of the sorted snapshot
(walls, floors, doors, furniture) is sorted by the (x, y) coordinates of
the entry's position. -/
theorem c9_snapshot_sorted (d : SaveData) :
    (sort_save_data d).walls.Pairwise GridPoint.le ∧
    (sort_save_data d).floors.Pairwise (fun a b => GridPoint.le a.position b.position) ∧
    (sort_save_data d).doors.Pairwise (fun a b => GridPoint.le a.position b.position) ∧
    (sort_save_data d).furniture.Pairwise (fun a b => GridPoint.le a.position b.position) := by
  unfold sort_save_data
  refine ⟨?_, ?_, ?_, ?_⟩
  · have := @List.sorted_mergeSort GridPoint
      (fun a b : GridPoint => decide (GridPoint.le a b))
      (fun a b c hab hbc =>
        decide_eq_true (gridPointLe_trans a b c (of_decide_eq_true hab) (of_decide_eq_true hbc)))
      (fun a b => by
        rcases gridPointLe_total a b with h | h
        · simp [decide_eq_true h]
        · simp [decide_eq_true h])
      d.walls
    exact this.imp (fun h => of_decide_eq_true h)
  · have := @List.sorted_mergeSort FloorData
      (fun a b : FloorData => decide (GridPoint.le a.position b.position))
      (fun a b c hab hbc =>
        decide_eq_true (gridPointLe_trans _ _ _ (of_decide_eq_true hab) (of_decide_eq_true hbc)))
      (fun a b => by
        rcases gridPointLe_total a.position b.position with h | h
        · simp [decide_eq_true h]
        · simp [decide_eq_true h])
      d.floors
    exact this.imp (fun h => of_decide_eq_true h)
  · have := @List.sorted_mergeSort DoorData
      (fun a b : DoorData => decide (GridPoint.le a.position b.position))
      (fun a b c hab hbc =>
        decide_eq_true (gridPointLe_trans _ _ _ (of_decide_eq_true hab) (of_decide_eq_true hbc)))
      (fun a b => by
        rcases gridPointLe_total a.position b.position with h | h
        · simp [decide_eq_true h]
        · simp [decide_eq_true h])
      d.doors
    exact this.imp (fun h => of_decide_eq_true h)
  · have := @List.sorted_mergeSort FurnitureData
      (fun a b : FurnitureData => decide (GridPoint.le a.position b.position))
      (fun a b c hab hbc =>
        decide_eq_true (gridPointLe_trans _ _ _ (of_decide_eq_true hab) (of_decide_eq_true hbc)))
      (fun a b => by
        rcases gridPointLe_total a.position b.position with h | h
        · simp [decide_eq_true h]
        · simp [decide_eq_true h])
      d.furniture
    exact this.imp (fun h => of_decide_eq_true h)

lemma mem_update_overlapping_zone (zt : ZoneType) (room : Room) (q : ZoneQuality)
    (zs : List Zone) (z : Zone)
    (hz : z ∈ (update_overlapping_zone zt room q zs).1) :
    z ∈ zs ∨ (z.zone_type = zt ∧ z.tiles = room.tiles ∧ z.quality = q) := by
  induction zs with
  | nil => cases hz
  | cons z0 rest ih =>
      unfold update_overlapping_zone at hz
      by_cases hc : z0.zone_type = zt ∧ ∃ t ∈ z0.tiles, room.contains_tile t
      · rw [if_pos hc] at hz
        rcases List.mem_cons.mp hz with rfl | hmem
        · exact Or.inr ⟨hc.1, rfl, rfl⟩
        · exact Or.inl (List.mem_cons_of_mem _ hmem)
      · rw [if_neg hc] at hz
        rcases List.mem_cons.mp hz with rfl | hmem
        · exact Or.inl (List.mem_cons_self _ _)
        · rcases ih hmem with hl | hr
          · exact Or.inl (List.mem_cons_of_mem _ hl)
          · exact Or.inr hr

lemma mem_bedroom_zone_step (beds furn : List Pos) (acc : List Zone × List Zone)
    (ir : ℕ × Room) (z : Zone)
    (hz : z ∈ (bedroom_zone_step beds furn acc ir).1 ∨
          z ∈ (bedroom_zone_step beds furn acc ir).2) :
    (z ∈ acc.1 ∨ z ∈ acc.2) ∨
      ((∃ b ∈ beds, ir.2.contains_tile b) ∧
       z.zone_type = ZoneType.GuestBedroom ∧ z.tiles = ir.2.tiles ∧
       z.quality = calculate_bedroom_quality ir.2.tile_count
         (furn.filter (fun q => decide (ir.2.contains_tile q))).length) := by
  unfold bedroom_zone_step at hz
  by_cases hb : ∃ b ∈ beds, ir.2.contains_tile b
  · rw [if_pos hb] at hz
    simp only at hz
    set q := calculate_bedroom_quality ir.2.tile_count
      (furn.filter (fun t => decide (ir.2.contains_tile t))).length with hq
    by_cases hu : (update_overlapping_zone .GuestBedroom ir.2 q acc.1).2 = true
    · rw [if_pos hu] at hz
      rcases hz with hz | hz
      · rcases mem_update_overlapping_zone _ _ _ _ _ hz with h | h
        · exact Or.inl (Or.inl h)
        · exact Or.inr ⟨hb, h⟩
      · exact Or.inl (Or.inr hz)
    · rw [if_neg hu] at hz
      rcases hz with hz | hz
      · rcases mem_update_overlapping_zone _ _ _ _ _ hz with h | h
        · exact Or.inl (Or.inl h)
        · exact Or.inr ⟨hb, h⟩
      · rcases List.mem_append.mp hz with h | h
        · exact Or.inl (Or.inr h)
        · rcases List.mem_singleton.mp h with rfl
          exact Or.inr ⟨hb, rfl, rfl, rfl⟩
  · rw [if_neg hb] at hz
    exact Or.inl hz

lemma mem_lobby_zone_step (consoles furn : List Pos) (acc : List Zone × List Zone)
    (ir : ℕ × Room) (z : Zone)
    (hz : z ∈ (lobby_zone_step consoles furn acc ir).1 ∨
          z ∈ (lobby_zone_step consoles furn acc ir).2) :
    (z ∈ acc.1 ∨ z ∈ acc.2) ∨
      ((∃ c ∈ consoles, ir.2.contains_tile c) ∧
       z.zone_type = ZoneType.Lobby ∧ z.tiles = ir.2.tiles ∧
       z.quality = calculate_lobby_quality ir.2.tile_count
         (furn.filter (fun q => decide (ir.2.contains_tile q))).length) := by
  unfold lobby_zone_step at hz
  by_cases hb : ∃ c ∈ consoles, ir.2.contains_tile c
  · rw [if_pos hb] at hz
    simp only at hz
    set q := calculate_lobby_quality ir.2.tile_count
      (furn.filter (fun t => decide (ir.2.contains_tile t))).length with hq
    by_cases hu : (update_overlapping_zone .Lobby ir.2 q acc.1).2 = true
    · rw [if_pos hu] at hz
      rcases hz with hz | hz
      · rcases mem_update_overlapping_zone _ _ _ _ _ hz with h | h
        · exact Or.inl (Or.inl h)
        · exact Or.inr ⟨hb, h⟩
      · exact Or.inl (Or.inr hz)
    · rw [if_neg hu] at hz
      rcases hz with hz | hz
      · rcases mem_update_overlapping_zone _ _ _ _ _ hz with h | h
        · exact Or.inl (Or.inl h)
        · exact Or.inr ⟨hb, h⟩
      · rcases List.mem_append.mp hz with h | h
        · exact Or.inl (Or.inr h)
        · rcases List.mem_singleton.mp h with rfl
          exact Or.inr ⟨hb, rfl, rfl, rfl⟩
  · rw [if_neg hb] at hz
    exact Or.inl hz

lemma bedroom_fold_mem (beds furn : List Pos) (rooms : List (ℕ × Room))
    (rs : List (ℕ × Room)) (acc : List Zone × List Zone) (zones : List Zone)
    (hsub : ∀ ir ∈ rs, ir ∈ rooms)
    (hacc : ∀ z : Zone, (z ∈ acc.1 ∨ z ∈ acc.2) → z ∈ zones ∨
      ∃ ir ∈ rooms, (∃ b ∈ beds, ir.2.contains_tile b) ∧
        z.zone_type = ZoneType.GuestBedroom ∧ z.tiles = ir.2.tiles ∧
        z.quality = calculate_bedroom_quality ir.2.tile_count
          (furn.filter (fun q => decide (ir.2.contains_tile q))).length) :
    ∀ z : Zone,
      (z ∈ (rs.foldl (bedroom_zone_step beds furn) acc).1 ∨
       z ∈ (rs.foldl (bedroom_zone_step beds furn) acc).2) → z ∈ zones ∨
      ∃ ir ∈ rooms, (∃ b ∈ beds, ir.2.contains_tile b) ∧
        z.zone_type = ZoneType.GuestBedroom ∧ z.tiles = ir.2.tiles ∧
        z.quality = calculate_bedroom_quality ir.2.tile_count
          (furn.filter (fun q => decide (ir.2.contains_tile q))).length := by
  induction rs generalizing acc with
  | nil => exact hacc
  | cons ir rest ih =>
      intro z hz
      rw [List.foldl_cons] at hz
      refine ih (bedroom_zone_step beds furn acc ir)
        (fun u hu => hsub u (List.mem_cons_of_mem ir hu)) ?_ z hz
      intro w hw
      rcases mem_bedroom_zone_step beds furn acc ir w hw with h | h
      · exact hacc w h
      · exact Or.inr ⟨ir, hsub ir (List.mem_cons_self ir rest), h⟩

lemma lobby_fold_mem (consoles furn : List Pos) (rooms : List (ℕ × Room))
    (rs : List (ℕ × Room)) (acc : List Zone × List Zone) (zones : List Zone)
    (hsub : ∀ ir ∈ rs, ir ∈ rooms)
    (hacc : ∀ z : Zone, (z ∈ acc.1 ∨ z ∈ acc.2) → z ∈ zones ∨
      ∃ ir ∈ rooms, (∃ c ∈ consoles, ir.2.contains_tile c) ∧
        z.zone_type = ZoneType.Lobby ∧ z.tiles = ir.2.tiles ∧
        z.quality = calculate_lobby_quality ir.2.tile_count
          (furn.filter (fun q => decide (ir.2.contains_tile q))).length) :
    ∀ z : Zone,
      (z ∈ (rs.foldl (lobby_zone_step consoles furn) acc).1 ∨
       z ∈ (rs.foldl (lobby_zone_step consoles furn) acc).2) → z ∈ zones ∨
      ∃ ir ∈ rooms, (∃ c ∈ consoles, ir.2.contains_tile c) ∧
        z.zone_type = ZoneType.Lobby ∧ z.tiles = ir.2.tiles ∧
        z.quality = calculate_lobby_quality ir.2.tile_count
          (furn.filter (fun q => decide (ir.2.contains_tile q))).length := by
  induction rs generalizing acc with
  | nil => exact hacc
  | cons ir rest ih =>
      intro z hz
      rw [List.foldl_cons] at hz
      refine ih (lobby_zone_step consoles furn acc ir)
        (fun u hu => hsub u (List.mem_cons_of_mem ir hu)) ?_ z hz
      intro w hw
      rcases mem_lobby_zone_step consoles furn acc ir w hw with h | h
      · exact hacc w h
      · exact Or.inr ⟨ir, hsub ir (List.mem_cons_self ir rest), h⟩

/-- C3 counterexample: a Room of only 4 tiles whose tile set contains a
Bed position gets a GuestBedroom Zone created for it (with quality None),
although the claim allows creation only for rooms of at least 12 tiles. -/
theorem c3_counterexample :
    ∃ z ∈ auto_assign_bedroom_zones
        [(0, { tiles := {(1, 1), (1, 2), (2, 1), (2, 2)} })]
        [(1, 1)] [(1, 1)] [],
      z.zone_type = ZoneType.GuestBedroom ∧ z.tiles.card = 4 ∧
        z.quality = ZoneQuality.None := by
  decide

/-- C3 (amended): a GuestBedroom Zone is created or updated for a Room
only if the Room contains a Bed's grid position, with tiles equal to the
Room's tiles and quality computed by calculate_bedroom_quality; the
12-tile minimum is not a creation precondition and only gates the quality
(a qualifying Room under 12 tiles receives quality None).
Correspondingly, a Lobby Zone only for a Room containing a
ReceptionConsole, with the 15-tile minimum likewise gating only quality. -/
theorem c3_zone_creation (rooms : List (ℕ × Room)) (beds consoles furn : List Pos)
    (zones : List Zone) (z : Zone) :
    (z ∈ auto_assign_bedroom_zones rooms beds furn zones → z ∈ zones ∨
      ∃ ir ∈ rooms, (∃ b ∈ beds, ir.2.contains_tile b) ∧
        z.zone_type = ZoneType.GuestBedroom ∧ z.tiles = ir.2.tiles ∧
        z.quality = calculate_bedroom_quality ir.2.tile_count
          (furn.filter (fun q => decide (ir.2.contains_tile q))).length ∧
        (ir.2.tile_count < 12 → z.quality = ZoneQuality.None)) ∧
    (z ∈ auto_assign_lobby_zones rooms consoles furn zones → z ∈ zones ∨
      ∃ ir ∈ rooms, (∃ c ∈ consoles, ir.2.contains_tile c) ∧
        z.zone_type = ZoneType.Lobby ∧ z.tiles = ir.2.tiles ∧
        z.quality = calculate_lobby_quality ir.2.tile_count
          (furn.filter (fun q => decide (ir.2.contains_tile q))).length ∧
        (ir.2.tile_count < 15 → z.quality = ZoneQuality.None)) := by
  constructor
  · intro hz
    unfold auto_assign_bedroom_zones at hz
    rcases bedroom_fold_mem beds furn rooms rooms (zones, []) zones
        (fun u hu => hu)
        (by intro w hw; rcases hw with hw | hw
            · exact Or.inl hw
            · cases hw)
        z (by
          rcases List.mem_append.mp hz with h | h
          · exact Or.inl h
          · exact Or.inr h) with h | h
    · exact Or.inl h
    · rcases h with ⟨ir, hir, hbed, hty, hti, hq⟩
      refine Or.inr ⟨ir, hir, hbed, hty, hti, hq, ?_⟩
      intro hlt
      rw [hq]
      unfold calculate_bedroom_quality
      rw [if_pos hlt]
  · intro hz
    unfold auto_assign_lobby_zones at hz
    rcases lobby_fold_mem consoles furn rooms rooms (zones, []) zones
        (fun u hu => hu)
        (by intro w hw; rcases hw with hw | hw
            · exact Or.inl hw
            · cases hw)
        z (by
          rcases List.mem_append.mp hz with h | h
          · exact Or.inl h
          · exact Or.inr h) with h | h
    · exact Or.inl h
    · rcases h with ⟨ir, hir, hcon, hty, hti, hq⟩
      refine Or.inr ⟨ir, hir, hcon, hty, hti, hq, ?_⟩
      intro hlt
      rw [hq]
      unfold calculate_lobby_quality
      rw [if_pos hlt]

/-- Witness for C3 at the concrete small-room instance: the zone created
for the 4-tile bed room satisfies the amended characterization. -/
theorem c3_zone_creation_witness :
    ({ zone_type := ZoneType.GuestBedroom,
       tiles := ({(1, 1), (1, 2), (2, 1), (2, 2)} : Finset Pos),
       quality := ZoneQuality.None,
       name := "Guest Bedroom 0" } : Zone) ∈ auto_assign_bedroom_zones
        [(0, { tiles := {(1, 1), (1, 2), (2, 1), (2, 2)} })] [(1, 1)] [(1, 1)] [] ∧
    (({ zone_type := ZoneType.GuestBedroom,
        tiles := ({(1, 1), (1, 2), (2, 1), (2, 2)} : Finset Pos),
        quality := ZoneQuality.None,
        name := "Guest Bedroom 0" } : Zone) ∈ ([] : List Zone) ∨
      ∃ ir ∈ [((0 : ℕ), ({ tiles := {(1, 1), (1, 2), (2, 1), (2, 2)} } : Room))],
        (∃ b ∈ [((1 : ℤ), (1 : ℤ))], ir.2.contains_tile b) ∧
        ZoneType.GuestBedroom = ZoneType.GuestBedroom ∧
        ({(1, 1), (1, 2), (2, 1), (2, 2)} : Finset Pos) = ir.2.tiles ∧
        ZoneQuality.None = calculate_bedroom_quality ir.2.tile_count
          (([((1 : ℤ), (1 : ℤ))].filter (fun q => decide (ir.2.contains_tile q)))).length ∧
        (ir.2.tile_count < 12 → ZoneQuality.None = ZoneQuality.None)) :=
  ⟨by decide,
   (c3_zone_creation [(0, { tiles := {(1, 1), (1, 2), (2, 1), (2, 2)} })]
      [(1, 1)] [] [(1, 1)] []
      { zone_type := ZoneType.GuestBedroom,
        tiles := ({(1, 1), (1, 2), (2, 1), (2, 2)} : Finset Pos),
        quality := ZoneQuality.None,
        name := "Guest Bedroom 0" }).1 (by decide)⟩

lemma staff_cmd_fold_fields (cmds : List (ℕ × ℕ × (ℚ × ℚ))) (p : Pawn) :
    (cmds.foldl (fun p cmd =>
      if cmd.1 = p.id then
        { p with movement := some cmd.2.2, staffing := some cmd.2.1 }
      else p) p).id = p.id ∧
    (cmds.foldl (fun p cmd =>
      if cmd.1 = p.id then
        { p with movement := some cmd.2.2, staffing := some cmd.2.1 }
      else p) p).pos = p.pos ∧
    (cmds.foldl (fun p cmd =>
      if cmd.1 = p.id then
        { p with movement := some cmd.2.2, staffing := some cmd.2.1 }
      else p) p).job_id = p.job_id ∧
    (cmds.foldl (fun p cmd =>
      if cmd.1 = p.id then
        { p with movement := some cmd.2.2, staffing := some cmd.2.1 }
      else p) p).construction_enabled = p.construction_enabled ∧
    (cmds.foldl (fun p cmd =>
      if cmd.1 = p.id then
        { p with movement := some cmd.2.2, staffing := some cmd.2.1 }
      else p) p).reception_enabled = p.reception_enabled := by
  induction cmds generalizing p with
  | nil => exact ⟨rfl, rfl, rfl, rfl, rfl⟩
  | cons c rest ih =>
      simp only [List.foldl_cons]
      by_cases hc : c.1 = p.id
      · rw [if_pos hc]
        exact ih _
      · rw [if_neg hc]
        exact ih p

/-- C10: reception staffing writes only MovementTarget and
StaffingReception.  Every pawn's id, position, current job and work
priorities are unchanged by assign_reception_staff; in particular each
pawn's job_id stays none if it was none, so a staffing pawn still passes
the idle and Construction-enabled checks of assign_jobs_to_pawns and
assign_deconstruction_jobs_to_pawns in later ticks. -/
theorem c10_staffing_preserves_job (gs : GridSettings) (pawns : List Pawn)
    (consoles : List (ℕ × Pos)) :
    (assign_reception_staff gs pawns consoles).map (fun p => p.id) =
      pawns.map (fun p => p.id) ∧
    (assign_reception_staff gs pawns consoles).map (fun p => p.pos) =
      pawns.map (fun p => p.pos) ∧
    (assign_reception_staff gs pawns consoles).map (fun p => p.job_id) =
      pawns.map (fun p => p.job_id) ∧
    (assign_reception_staff gs pawns consoles).map
        (fun p => decide (p.job_id = none) && p.construction_enabled) =
      pawns.map (fun p => decide (p.job_id = none) && p.construction_enabled) := by
  unfold assign_reception_staff
  simp only [List.map_map]
  refine ⟨?_, ?_, ?_, ?_⟩
  · apply List.map_congr_left
    intro p hp
    exact (staff_cmd_fold_fields _ p).1
  · apply List.map_congr_left
    intro p hp
    exact (staff_cmd_fold_fields _ p).2.1
  · apply List.map_congr_left
    intro p hp
    exact (staff_cmd_fold_fields _ p).2.2.1
  · apply List.map_congr_left
    intro p hp
    simp only [Function.comp_def]
    rw [(staff_cmd_fold_fields _ p).2.2.1, (staff_cmd_fold_fields _ p).2.2.2.1]

lemma find_nearest_fold (gs : GridSettings) (ppos : ℚ × ℚ) :
    ∀ (jobs : List ConstructionJob) (acc : Option (ℕ × ℚ)) (jid : ℕ) (d : ℚ),
      jobs.foldl (fun nearest_job job =>
        if job.assigned_pawn.isSome then nearest_job
        else
          match job.blueprint_pos with
          | none => nearest_job
          | some gp =>
            let dd := dist2 ppos (grid_to_world gp gs.tile_size gs.width gs.height)
            match nearest_job with
            | none => some (job.id, dd)
            | some nd => if dd < nd.2 then some (job.id, dd) else nearest_job) acc
        = some (jid, d) →
      ((acc = some (jid, d)) ∨
        ∃ j ∈ jobs, j.id = jid ∧ j.assigned_pawn = none ∧
          ∃ gp, j.blueprint_pos = some gp ∧
            d = dist2 ppos (grid_to_world gp gs.tile_size gs.width gs.height)) ∧
      (∀ j2 ∈ jobs, j2.assigned_pawn = none → ∀ gp2, j2.blueprint_pos = some gp2 →
        d ≤ dist2 ppos (grid_to_world gp2 gs.tile_size gs.width gs.height)) ∧
      (∀ jid0 d0, acc = some (jid0, d0) → d ≤ d0) := by
  intro jobs
  induction jobs with
  | nil =>
      intro acc jid d h
      simp only [List.foldl_nil] at h
      refine ⟨Or.inl h, ?_, ?_⟩
      · intro j2 hj2
        cases hj2
      · intro jid0 d0 h0
        rw [h] at h0
        simp only [Option.some.injEq, Prod.mk.injEq] at h0
        rw [h0.2]
  | cons job rest ih =>
      intro acc jid d h
      simp only [List.foldl_cons] at h
      by_cases hassigned : job.assigned_pawn.isSome = true
      · rw [if_pos hassigned] at h
        rcases ih acc jid d h with ⟨ha, hmin, hacc⟩
        refine ⟨?_, ?_, hacc⟩
        · rcases ha with ha | ⟨j, hj, hrest⟩
          · exact Or.inl ha
          · exact Or.inr ⟨j, List.mem_cons_of_mem _ hj, hrest⟩
        · intro j2 hj2 hun gp2 hgp2
          rcases List.mem_cons.mp hj2 with rfl | hj2
          · rw [hun] at hassigned
            simp at hassigned
          · exact hmin j2 hj2 hun gp2 hgp2
      · rw [if_neg hassigned] at h
        have hun0 : job.assigned_pawn = none := by
          rcases hj : job.assigned_pawn with _ | v
          · rfl
          · rw [hj] at hassigned
            simp at hassigned
        rcases hbp : job.blueprint_pos with _ | gp
        · rw [hbp] at h
          rcases ih acc jid d h with ⟨ha, hmin, hacc⟩
          refine ⟨?_, ?_, hacc⟩
          · rcases ha with ha | ⟨j, hj, hrest⟩
            · exact Or.inl ha
            · exact Or.inr ⟨j, List.mem_cons_of_mem _ hj, hrest⟩
          · intro j2 hj2 hun gp2 hgp2
            rcases List.mem_cons.mp hj2 with rfl | hj2
            · rw [hbp] at hgp2
              cases hgp2
            · exact hmin j2 hj2 hun gp2 hgp2
        · rw [hbp] at h
          rcases acc with _ | nd
          · dsimp only at h
            rcases ih _ jid d h with ⟨ha, hmin, hacc⟩
            have hdd : d ≤ dist2 ppos (grid_to_world gp gs.tile_size gs.width gs.height) :=
              hacc job.id _ rfl
            refine ⟨?_, ?_, ?_⟩
            · rcases ha with ha | ⟨j, hj, hrest⟩
              · simp only [Option.some.injEq, Prod.mk.injEq] at ha
                exact Or.inr ⟨job, List.mem_cons_self _ _, ha.1, hun0, gp, hbp, ha.2.symm⟩
              · exact Or.inr ⟨j, List.mem_cons_of_mem _ hj, hrest⟩
            · intro j2 hj2 hun gp2 hgp2
              rcases List.mem_cons.mp hj2 with rfl | hj2
              · rw [hbp] at hgp2
                simp only [Option.some.injEq] at hgp2
                rw [← hgp2]
                exact hdd
              · exact hmin j2 hj2 hun gp2 hgp2
            · intro jid0 d0 h0
              simp at h0
          · dsimp only at h
            by_cases hlt : dist2 ppos (grid_to_world gp gs.tile_size gs.width gs.height) < nd.2
            · rw [if_pos hlt] at h
              rcases ih _ jid d h with ⟨ha, hmin, hacc⟩
              have hdd : d ≤ dist2 ppos (grid_to_world gp gs.tile_size gs.width gs.height) :=
                hacc job.id _ rfl
              refine ⟨?_, ?_, ?_⟩
              · rcases ha with ha | ⟨j, hj, hrest⟩
                · simp only [Option.some.injEq, Prod.mk.injEq] at ha
                  exact Or.inr ⟨job, List.mem_cons_self _ _, ha.1, hun0, gp, hbp, ha.2.symm⟩
                · exact Or.inr ⟨j, List.mem_cons_of_mem _ hj, hrest⟩
              · intro j2 hj2 hun gp2 hgp2
                rcases List.mem_cons.mp hj2 with rfl | hj2
                · rw [hbp] at hgp2
                  simp only [Option.some.injEq] at hgp2
                  rw [← hgp2]
                  exact hdd
                · exact hmin j2 hj2 hun gp2 hgp2
              · intro jid0 d0 h0
                simp only [Option.some.injEq] at h0
                have hd0 : nd.2 = d0 := by rw [h0]
                rw [← hd0]
                exact le_of_lt (lt_of_le_of_lt hdd hlt)
            · rw [if_neg hlt] at h
              rcases ih _ jid d h with ⟨ha, hmin, hacc⟩
              have hdn : d ≤ nd.2 := hacc nd.1 nd.2 (by simp)
              refine ⟨?_, ?_, ?_⟩
              · rcases ha with ha | ⟨j, hj, hrest⟩
                · exact Or.inl ha
                · exact Or.inr ⟨j, List.mem_cons_of_mem _ hj, hrest⟩
              · intro j2 hj2 hun gp2 hgp2
                rcases List.mem_cons.mp hj2 with rfl | hj2
                · rw [hbp] at hgp2
                  simp only [Option.some.injEq] at hgp2
                  rw [← hgp2]
                  exact le_trans hdn (le_of_not_lt hlt)
                · exact hmin j2 hj2 hun gp2 hgp2
              · intro jid0 d0 h0
                simp only [Option.some.injEq] at h0
                have hd0 : nd.2 = d0 := by rw [h0]
                rw [← hd0]
                exact hdn

lemma find_nearest_job_spec (gs : GridSettings) (ppos : ℚ × ℚ)
    (jobs : List ConstructionJob) (jid : ℕ) (d : ℚ)
    (h : find_nearest_job gs ppos jobs = some (jid, d)) :
    (∃ j ∈ jobs, j.id = jid ∧ j.assigned_pawn = none ∧
      ∃ gp, j.blueprint_pos = some gp ∧
        d = dist2 ppos (grid_to_world gp gs.tile_size gs.width gs.height)) ∧
    (∀ j2 ∈ jobs, j2.assigned_pawn = none → ∀ gp2, j2.blueprint_pos = some gp2 →
      d ≤ dist2 ppos (grid_to_world gp2 gs.tile_size gs.width gs.height)) := by
  unfold find_nearest_job at h
  rcases find_nearest_fold gs ppos jobs none jid d h with ⟨ha, hmin, _⟩
  rcases ha with ha | ha
  · simp at ha
  · exact ⟨ha, hmin⟩

lemma construction_assign_step_spec (gs : GridSettings) (done : List Pawn)
    (js : List ConstructionJob) (pw : Pawn) (hidle : pw.job_id = none) :
    construction_assign_step gs (done, js) pw = (done ++ [pw], js) ∨
    ∃ nd M, find_nearest_job gs pw.pos js = some nd ∧
      construction_assign_step gs (done, js) pw =
        (done ++ [{ pw with job_id := some nd.1, movement := M }],
         js.map (fun j =>
           if j.id = nd.1 then { j with assigned_pawn := some pw.id } else j)) := by
  by_cases hen : pw.construction_enabled = true
  · rcases hfn : find_nearest_job gs pw.pos js with _ | nd
    · left
      unfold construction_assign_step
      rw [hidle]
      simp only [Option.isSome_none, Bool.false_eq_true, if_false]
      rw [if_neg (not_not_intro hen)]
      rw [hfn]
    · right
      refine ⟨nd, ?_, rfl, ?_⟩
      · exact
          (match ((js.map (fun j =>
              if j.id = nd.1 then { j with assigned_pawn := some pw.id } else j)).find?
                (fun j => decide (j.id = nd.1))).bind (fun j => j.blueprint_pos) with
           | some gp => some (grid_to_world gp gs.tile_size gs.width gs.height)
           | none => pw.movement)
      · unfold construction_assign_step
        rw [hidle]
        simp only [Option.isSome_none, Bool.false_eq_true, if_false]
        rw [if_neg (not_not_intro hen)]
        rw [hfn]
  · left
    unfold construction_assign_step
    rw [hidle]
    simp only [Option.isSome_none, Bool.false_eq_true, if_false]
    rw [if_pos hen]

lemma assign_map_id_bp (js : List ConstructionJob) (jid0 : ℕ) (pid : ℕ) :
    (js.map (fun j =>
      if j.id = jid0 then { j with assigned_pawn := some pid } else j)).map
        (fun j => (j.id, j.blueprint_pos)) =
      js.map (fun j => (j.id, j.blueprint_pos)) := by
  rw [List.map_map]
  apply List.map_congr_left
  intro j hj
  by_cases hc : j.id = jid0 <;> simp [hc]

lemma mem_assign_map_unassigned (js : List ConstructionJob) (jid0 : ℕ) (pid : ℕ)
    (j2 : ConstructionJob)
    (h : j2 ∈ js.map (fun j =>
      if j.id = jid0 then { j with assigned_pawn := some pid } else j))
    (hun : j2.assigned_pawn = none) : j2 ∈ js := by
  rcases List.mem_map.mp h with ⟨j, hj, hfj⟩
  by_cases hc : j.id = jid0
  · rw [if_pos hc] at hfj
    rw [← hfj] at hun
    simp at hun
  · rw [if_neg hc] at hfj
    rw [← hfj]
    exact hj

lemma construction_fold_invariant (gs : GridSettings) (jobs0 : List ConstructionJob)
    (hjn : (jobs0.map (fun j => j.id)).Nodup) :
    ∀ (rest : List Pawn) (done : List Pawn) (js : List ConstructionJob),
      (∀ p ∈ rest, p.job_id = none) →
      js.map (fun j => (j.id, j.blueprint_pos)) =
        jobs0.map (fun j => (j.id, j.blueprint_pos)) →
      (∀ p ∈ done, ∀ jid, p.job_id = some jid →
        ∃ j ∈ js, j.id = jid ∧ j.assigned_pawn = some p.id) →
      (∀ j ∈ js, ∀ pid, j.assigned_pawn = some pid →
        ∃ p ∈ done, p.id = pid ∧ p.job_id = some j.id) →
      (∀ p ∈ done, ∀ jid, p.job_id = some jid →
        ∃ j ∈ js, j.id = jid ∧ ∃ gp, j.blueprint_pos = some gp ∧
          ∀ j2 ∈ js, j2.assigned_pawn = none → ∀ gp2, j2.blueprint_pos = some gp2 →
            dist2 p.pos (grid_to_world gp gs.tile_size gs.width gs.height) ≤
              dist2 p.pos (grid_to_world gp2 gs.tile_size gs.width gs.height)) →
      ((rest.foldl (construction_assign_step gs) (done, js)).1.map (fun p => p.id) =
        done.map (fun p => p.id) ++ rest.map (fun p => p.id)) ∧
      ((rest.foldl (construction_assign_step gs) (done, js)).2.map
          (fun j => (j.id, j.blueprint_pos)) =
        jobs0.map (fun j => (j.id, j.blueprint_pos))) ∧
      (∀ p ∈ (rest.foldl (construction_assign_step gs) (done, js)).1, ∀ jid,
        p.job_id = some jid →
        ∃ j ∈ (rest.foldl (construction_assign_step gs) (done, js)).2,
          j.id = jid ∧ j.assigned_pawn = some p.id) ∧
      (∀ j ∈ (rest.foldl (construction_assign_step gs) (done, js)).2, ∀ pid,
        j.assigned_pawn = some pid →
        ∃ p ∈ (rest.foldl (construction_assign_step gs) (done, js)).1,
          p.id = pid ∧ p.job_id = some j.id) ∧
      (∀ p ∈ (rest.foldl (construction_assign_step gs) (done, js)).1, ∀ jid,
        p.job_id = some jid →
        ∃ j ∈ (rest.foldl (construction_assign_step gs) (done, js)).2, j.id = jid ∧
          ∃ gp, j.blueprint_pos = some gp ∧
            ∀ j2 ∈ (rest.foldl (construction_assign_step gs) (done, js)).2,
              j2.assigned_pawn = none → ∀ gp2, j2.blueprint_pos = some gp2 →
                dist2 p.pos (grid_to_world gp gs.tile_size gs.width gs.height) ≤
                  dist2 p.pos (grid_to_world gp2 gs.tile_size gs.width gs.height)) := by
  intro rest
  induction rest with
  | nil =>
      intro done js hrest hJ hP1 hP2 hP5
      refine ⟨by simp, hJ, hP1, hP2, hP5⟩
  | cons pw rest ih =>
      intro done js hrest hJ hP1 hP2 hP5
      have hid : pw.job_id = none := hrest pw (List.mem_cons_self _ _)
      have hrest' : ∀ p ∈ rest, p.job_id = none :=
        fun p hp => hrest p (List.mem_cons_of_mem _ hp)
      simp only [List.foldl_cons]
      rcases construction_assign_step_spec gs done js pw hid with hstep | ⟨nd, M, hfn, hstep⟩
      · rw [hstep]
        have hP1' : ∀ p ∈ done ++ [pw], ∀ jid, p.job_id = some jid →
            ∃ j ∈ js, j.id = jid ∧ j.assigned_pawn = some p.id := by
          intro p hp jid hpj
          rcases List.mem_append.mp hp with hp | hp
          · exact hP1 p hp jid hpj
          · rcases List.mem_singleton.mp hp with rfl
            rw [hid] at hpj
            cases hpj
        have hP2' : ∀ j ∈ js, ∀ pid, j.assigned_pawn = some pid →
            ∃ p ∈ done ++ [pw], p.id = pid ∧ p.job_id = some j.id := by
          intro j hj pid hja
          rcases hP2 j hj pid hja with ⟨p, hp, h1, h2⟩
          exact ⟨p, List.mem_append.mpr (Or.inl hp), h1, h2⟩
        have hP5' : ∀ p ∈ done ++ [pw], ∀ jid, p.job_id = some jid →
            ∃ j ∈ js, j.id = jid ∧ ∃ gp, j.blueprint_pos = some gp ∧
              ∀ j2 ∈ js, j2.assigned_pawn = none → ∀ gp2, j2.blueprint_pos = some gp2 →
                dist2 p.pos (grid_to_world gp gs.tile_size gs.width gs.height) ≤
                  dist2 p.pos (grid_to_world gp2 gs.tile_size gs.width gs.height) := by
          intro p hp jid hpj
          rcases List.mem_append.mp hp with hp | hp
          · exact hP5 p hp jid hpj
          · rcases List.mem_singleton.mp hp with rfl
            rw [hid] at hpj
            cases hpj
        rcases ih (done ++ [pw]) js hrest' hJ hP1' hP2' hP5' with ⟨hids, hJ2, hp1, hp2, hp5⟩
        refine ⟨?_, hJ2, hp1, hp2, hp5⟩
        rw [hids]
        simp
      · rw [hstep]
        have hjs_nodup : (js.map (fun j => j.id)).Nodup := by
          have h2 := congrArg (List.map Prod.fst) hJ
          rw [List.map_map, List.map_map] at h2
          have h3 : js.map (fun j => j.id) = jobs0.map (fun j => j.id) := h2
          rw [h3]
          exact hjn
        have hinj := List.inj_on_of_nodup_map hjs_nodup
        rcases find_nearest_job_spec gs pw.pos js nd.1 nd.2 (by simpa using hfn) with
          ⟨⟨jsel, hjsel, hjsel_id, hjsel_un, gp, hgp, hd⟩, hmin⟩
        have hkey : ∀ j ∈ js, j.id = nd.1 → j = jsel := by
          intro j hj hji
          exact hinj hj hjsel (by rw [hji, hjsel_id])
        have hselmem : (if jsel.id = nd.1 then
            { jsel with assigned_pawn := some pw.id } else jsel) ∈ js.map (fun j =>
              if j.id = nd.1 then { j with assigned_pawn := some pw.id } else j) :=
          List.mem_map_of_mem _ hjsel
        rw [if_pos hjsel_id] at hselmem
        have hmem_ne : ∀ j ∈ js, j.id ≠ nd.1 → j ∈ js.map (fun j =>
            if j.id = nd.1 then { j with assigned_pawn := some pw.id } else j) := by
          intro j hj hne
          have h0 := List.mem_map_of_mem
            (fun j : ConstructionJob =>
              if j.id = nd.1 then { j with assigned_pawn := some pw.id } else j) hj
          simp only [if_neg hne] at h0
          exact h0
        have hassigned_ne : ∀ j ∈ js, ∀ pid : ℕ, j.assigned_pawn = some pid →
            j.id ≠ nd.1 := by
          intro j hj pid hja hji
          rw [hkey j hj hji] at hja
          rw [hjsel_un] at hja
          cases hja
        have hP1' : ∀ p ∈ done ++ [{ pw with job_id := some nd.1, movement := M }],
            ∀ jid, p.job_id = some jid →
            ∃ j ∈ js.map (fun j =>
              if j.id = nd.1 then { j with assigned_pawn := some pw.id } else j),
              j.id = jid ∧ j.assigned_pawn = some p.id := by
          intro p hp jid hpj
          rcases List.mem_append.mp hp with hp | hp
          · rcases hP1 p hp jid hpj with ⟨j, hj, hji, hja⟩
            exact ⟨j, hmem_ne j hj (hassigned_ne j hj p.id hja), hji, hja⟩
          · rcases List.mem_singleton.mp hp with rfl
            simp only at hpj
            rcases Option.some.inj hpj with rfl
            exact ⟨_, hselmem, by simp [hjsel_id], by simp⟩
        have hP2' : ∀ j ∈ js.map (fun j =>
            if j.id = nd.1 then { j with assigned_pawn := some pw.id } else j),
            ∀ pid, j.assigned_pawn = some pid →
            ∃ p ∈ done ++ [{ pw with job_id := some nd.1, movement := M }],
              p.id = pid ∧ p.job_id = some j.id := by
          intro j2 hj2 pid hja
          rcases List.mem_map.mp hj2 with ⟨j, hj, hfj⟩
          by_cases hc : j.id = nd.1
          · rw [if_pos hc] at hfj
            have hjeq : j = jsel := hkey j hj hc
            rw [← hfj] at hja ⊢
            simp only at hja ⊢
            rcases Option.some.inj hja with rfl
            refine ⟨{ pw with job_id := some nd.1, movement := M },
              List.mem_append.mpr (Or.inr (List.mem_singleton.mpr rfl)), rfl, ?_⟩
            simp [hc]
          · rw [if_neg hc] at hfj
            rw [← hfj] at hja ⊢
            rcases hP2 j hj pid hja with ⟨p, hp, h1, h2⟩
            exact ⟨p, List.mem_append.mpr (Or.inl hp), h1, h2⟩
        have hP5' : ∀ p ∈ done ++ [{ pw with job_id := some nd.1, movement := M }],
            ∀ jid, p.job_id = some jid →
            ∃ j ∈ js.map (fun j =>
              if j.id = nd.1 then { j with assigned_pawn := some pw.id } else j),
              j.id = jid ∧ ∃ gp0, j.blueprint_pos = some gp0 ∧
              ∀ j2 ∈ js.map (fun j =>
                if j.id = nd.1 then { j with assigned_pawn := some pw.id } else j),
                j2.assigned_pawn = none → ∀ gp2, j2.blueprint_pos = some gp2 →
                  dist2 p.pos (grid_to_world gp0 gs.tile_size gs.width gs.height) ≤
                    dist2 p.pos (grid_to_world gp2 gs.tile_size gs.width gs.height) := by
          intro p hp jid hpj
          rcases List.mem_append.mp hp with hp | hp
          · rcases hP1 p hp jid hpj with ⟨j1, hj1, hj1i, hj1a⟩
            rcases hP5 p hp jid hpj with ⟨j5, hj5, hj5i, gp5, hgp5, hmin5⟩
            have hj15 : j1 = j5 := hinj hj1 hj5 (by rw [hj1i, hj5i])
            have hne : j5.id ≠ nd.1 :=
              hassigned_ne j5 hj5 p.id (by rw [← hj15]; exact hj1a)
            refine ⟨j5, hmem_ne j5 hj5 hne, hj5i, gp5, hgp5, ?_⟩
            intro j2 hj2 hun gp2 hgp2
            exact hmin5 j2 (mem_assign_map_unassigned js nd.1 pw.id j2 hj2 hun) hun gp2 hgp2
          · rcases List.mem_singleton.mp hp with rfl
            simp only at hpj
            rcases Option.some.inj hpj with rfl
            refine ⟨_, hselmem, by simp [hjsel_id], gp, by simp [hgp], ?_⟩
            intro j2 hj2 hun gp2 hgp2
            have hj2js := mem_assign_map_unassigned js nd.1 pw.id j2 hj2 hun
            have := hmin j2 hj2js hun gp2 hgp2
            simp only
            rw [← hd]
            exact this
        rcases ih (done ++ [{ pw with job_id := some nd.1, movement := M }])
          (js.map (fun j =>
            if j.id = nd.1 then { j with assigned_pawn := some pw.id } else j))
          hrest' ((assign_map_id_bp js nd.1 pw.id).trans hJ) hP1' hP2' hP5' with
          ⟨hids, hJ2, hp1, hp2, hp5⟩
        refine ⟨?_, hJ2, hp1, hp2, hp5⟩
        rw [hids]
        simp

lemma construction_pass_sound_of (gs : GridSettings) (pawns : List Pawn)
    (jobs : List ConstructionJob)
    (hpn : (pawns.map (fun p => p.id)).Nodup)
    (hjn : (jobs.map (fun j => j.id)).Nodup)
    (hidle : ∀ p ∈ pawns, p.job_id = none)
    (hun : ∀ j ∈ jobs, j.assigned_pawn = none) :
    construction_pass_sound gs (assign_jobs_to_pawns gs pawns jobs).1
      (assign_jobs_to_pawns gs pawns jobs).2 := by
  have hbase2 : ∀ j ∈ jobs, ∀ pid, j.assigned_pawn = some pid →
      ∃ p ∈ ([] : List Pawn), p.id = pid ∧ p.job_id = some j.id := by
    intro j hj pid hja
    rw [hun j hj] at hja
    cases hja
  rcases construction_fold_invariant gs jobs hjn pawns [] jobs hidle rfl
    (by intro p hp; cases hp) hbase2 (by intro p hp; cases hp) with
    ⟨hids, hJ, hp1, hp2, hp5⟩
  have hres : assign_jobs_to_pawns gs pawns jobs =
      pawns.foldl (construction_assign_step gs) ([], jobs) := rfl
  rw [hres]
  have hjs_nodup : ((pawns.foldl (construction_assign_step gs) ([], jobs)).2.map
      (fun j => j.id)).Nodup := by
    have h2 := congrArg (List.map Prod.fst) hJ
    rw [List.map_map, List.map_map] at h2
    have h3 : (pawns.foldl (construction_assign_step gs) ([], jobs)).2.map
        (fun j => j.id) = jobs.map (fun j => j.id) := h2
    rw [h3]
    exact hjn
  have hps_nodup : ((pawns.foldl (construction_assign_step gs) ([], jobs)).1.map
      (fun p => p.id)).Nodup := by
    rw [hids]
    simpa using hpn
  have hjinj := List.inj_on_of_nodup_map hjs_nodup
  have hpinj := List.inj_on_of_nodup_map hps_nodup
  refine ⟨hp1, hp2, ?_, ?_, hp5⟩
  · intro p1 hm1 p2 hm2 jid h1 h2
    rcases hp1 p1 hm1 jid h1 with ⟨j1, hj1, hj1i, hj1a⟩
    rcases hp1 p2 hm2 jid h2 with ⟨j2, hj2, hj2i, hj2a⟩
    have hj12 : j1 = j2 := hjinj hj1 hj2 (by rw [hj1i, hj2i])
    rw [hj12] at hj1a
    exact Option.some.inj (hj1a.symm.trans hj2a)
  · intro j1 hj1 j2 hj2 pid h1 h2
    rcases hp2 j1 hj1 pid h1 with ⟨p1, hm1, hpi1, hpj1⟩
    rcases hp2 j2 hj2 pid h2 with ⟨p2, hm2, hpi2, hpj2⟩
    have hp12 : p1 = p2 := hpinj hm1 hm2 (by rw [hpi1, hpi2])
    rw [hp12] at hpj1
    exact Option.some.inj (hpj1.symm.trans hpj2)

lemma find_nearest_decon_fold (gs : GridSettings) (ppos : ℚ × ℚ) :
    ∀ (jobs : List DeconstructionJob) (acc : Option (ℕ × ℚ)) (jid : ℕ) (d : ℚ),
      jobs.foldl (fun nearest_job job =>
        if job.assigned_pawn.isSome then nearest_job
        else
          match job.marker_pos with
          | none => nearest_job
          | some gp =>
            let dd := dist2 ppos (grid_to_world gp gs.tile_size gs.width gs.height)
            match nearest_job with
            | none => some (job.id, dd)
            | some nd => if dd < nd.2 then some (job.id, dd) else nearest_job) acc
        = some (jid, d) →
      ((acc = some (jid, d)) ∨
        ∃ j ∈ jobs, j.id = jid ∧ j.assigned_pawn = none ∧
          ∃ gp, j.marker_pos = some gp ∧
            d = dist2 ppos (grid_to_world gp gs.tile_size gs.width gs.height)) ∧
      (∀ j2 ∈ jobs, j2.assigned_pawn = none → ∀ gp2, j2.marker_pos = some gp2 →
        d ≤ dist2 ppos (grid_to_world gp2 gs.tile_size gs.width gs.height)) ∧
      (∀ jid0 d0, acc = some (jid0, d0) → d ≤ d0) := by
  intro jobs
  induction jobs with
  | nil =>
      intro acc jid d h
      simp only [List.foldl_nil] at h
      refine ⟨Or.inl h, ?_, ?_⟩
      · intro j2 hj2
        cases hj2
      · intro jid0 d0 h0
        rw [h] at h0
        simp only [Option.some.injEq, Prod.mk.injEq] at h0
        rw [h0.2]
  | cons job rest ih =>
      intro acc jid d h
      simp only [List.foldl_cons] at h
      by_cases hassigned : job.assigned_pawn.isSome = true
      · rw [if_pos hassigned] at h
        rcases ih acc jid d h with ⟨ha, hmin, hacc⟩
        refine ⟨?_, ?_, hacc⟩
        · rcases ha with ha | ⟨j, hj, hrest⟩
          · exact Or.inl ha
          · exact Or.inr ⟨j, List.mem_cons_of_mem _ hj, hrest⟩
        · intro j2 hj2 hun gp2 hgp2
          rcases List.mem_cons.mp hj2 with rfl | hj2
          · rw [hun] at hassigned
            simp at hassigned
          · exact hmin j2 hj2 hun gp2 hgp2
      · rw [if_neg hassigned] at h
        have hun0 : job.assigned_pawn = none := by
          rcases hj : job.assigned_pawn with _ | v
          · rfl
          · rw [hj] at hassigned
            simp at hassigned
        rcases hbp : job.marker_pos with _ | gp
        · rw [hbp] at h
          rcases ih acc jid d h with ⟨ha, hmin, hacc⟩
          refine ⟨?_, ?_, hacc⟩
          · rcases ha with ha | ⟨j, hj, hrest⟩
            · exact Or.inl ha
            · exact Or.inr ⟨j, List.mem_cons_of_mem _ hj, hrest⟩
          · intro j2 hj2 hun gp2 hgp2
            rcases List.mem_cons.mp hj2 with rfl | hj2
            · rw [hbp] at hgp2
              cases hgp2
            · exact hmin j2 hj2 hun gp2 hgp2
        · rw [hbp] at h
          rcases acc with _ | nd
          · dsimp only at h
            rcases ih _ jid d h with ⟨ha, hmin, hacc⟩
            have hdd : d ≤ dist2 ppos (grid_to_world gp gs.tile_size gs.width gs.height) :=
              hacc job.id _ rfl
            refine ⟨?_, ?_, ?_⟩
            · rcases ha with ha | ⟨j, hj, hrest⟩
              · simp only [Option.some.injEq, Prod.mk.injEq] at ha
                exact Or.inr ⟨job, List.mem_cons_self _ _, ha.1, hun0, gp, hbp, ha.2.symm⟩
              · exact Or.inr ⟨j, List.mem_cons_of_mem _ hj, hrest⟩
            · intro j2 hj2 hun gp2 hgp2
              rcases List.mem_cons.mp hj2 with rfl | hj2
              · rw [hbp] at hgp2
                simp only [Option.some.injEq] at hgp2
                rw [← hgp2]
                exact hdd
              · exact hmin j2 hj2 hun gp2 hgp2
            · intro jid0 d0 h0
              simp at h0
          · dsimp only at h
            by_cases hlt : dist2 ppos (grid_to_world gp gs.tile_size gs.width gs.height) < nd.2
            · rw [if_pos hlt] at h
              rcases ih _ jid d h with ⟨ha, hmin, hacc⟩
              have hdd : d ≤ dist2 ppos (grid_to_world gp gs.tile_size gs.width gs.height) :=
                hacc job.id _ rfl
              refine ⟨?_, ?_, ?_⟩
              · rcases ha with ha | ⟨j, hj, hrest⟩
                · simp only [Option.some.injEq, Prod.mk.injEq] at ha
                  exact Or.inr ⟨job, List.mem_cons_self _ _, ha.1, hun0, gp, hbp, ha.2.symm⟩
                · exact Or.inr ⟨j, List.mem_cons_of_mem _ hj, hrest⟩
              · intro j2 hj2 hun gp2 hgp2
                rcases List.mem_cons.mp hj2 with rfl | hj2
                · rw [hbp] at hgp2
                  simp only [Option.some.injEq] at hgp2
                  rw [← hgp2]
                  exact hdd
                · exact hmin j2 hj2 hun gp2 hgp2
              · intro jid0 d0 h0
                simp only [Option.some.injEq] at h0
                have hd0 : nd.2 = d0 := by rw [h0]
                rw [← hd0]
                exact le_of_lt (lt_of_le_of_lt hdd hlt)
            · rw [if_neg hlt] at h
              rcases ih _ jid d h with ⟨ha, hmin, hacc⟩
              have hdn : d ≤ nd.2 := hacc nd.1 nd.2 (by simp)
              refine ⟨?_, ?_, ?_⟩
              · rcases ha with ha | ⟨j, hj, hrest⟩
                · exact Or.inl ha
                · exact Or.inr ⟨j, List.mem_cons_of_mem _ hj, hrest⟩
              · intro j2 hj2 hun gp2 hgp2
                rcases List.mem_cons.mp hj2 with rfl | hj2
                · rw [hbp] at hgp2
                  simp only [Option.some.injEq] at hgp2
                  rw [← hgp2]
                  exact le_trans hdn (le_of_not_lt hlt)
                · exact hmin j2 hj2 hun gp2 hgp2
              · intro jid0 d0 h0
                simp only [Option.some.injEq] at h0
                have hd0 : nd.2 = d0 := by rw [h0]
                rw [← hd0]
                exact hdn

lemma find_nearest_deconstruction_job_spec (gs : GridSettings) (ppos : ℚ × ℚ)
    (jobs : List DeconstructionJob) (jid : ℕ) (d : ℚ)
    (h : find_nearest_deconstruction_job gs ppos jobs = some (jid, d)) :
    (∃ j ∈ jobs, j.id = jid ∧ j.assigned_pawn = none ∧
      ∃ gp, j.marker_pos = some gp ∧
        d = dist2 ppos (grid_to_world gp gs.tile_size gs.width gs.height)) ∧
    (∀ j2 ∈ jobs, j2.assigned_pawn = none → ∀ gp2, j2.marker_pos = some gp2 →
      d ≤ dist2 ppos (grid_to_world gp2 gs.tile_size gs.width gs.height)) := by
  unfold find_nearest_deconstruction_job at h
  rcases find_nearest_decon_fold gs ppos jobs none jid d h with ⟨ha, hmin, _⟩
  rcases ha with ha | ha
  · simp at ha
  · exact ⟨ha, hmin⟩

lemma deconstruction_assign_step_spec (gs : GridSettings) (done : List Pawn)
    (js : List DeconstructionJob) (pw : Pawn) (hidle : pw.job_id = none) :
    deconstruction_assign_step gs (done, js) pw = (done ++ [pw], js) ∨
    ∃ nd M, find_nearest_deconstruction_job gs pw.pos js = some nd ∧
      deconstruction_assign_step gs (done, js) pw =
        (done ++ [{ pw with job_id := some nd.1, movement := M }],
         js.map (fun j =>
           if j.id = nd.1 then { j with assigned_pawn := some pw.id } else j)) := by
  by_cases hen : pw.construction_enabled = true
  · rcases hfn : find_nearest_deconstruction_job gs pw.pos js with _ | nd
    · left
      unfold deconstruction_assign_step
      rw [hidle]
      simp only [Option.isSome_none, Bool.false_eq_true, if_false]
      rw [if_neg (not_not_intro hen)]
      rw [hfn]
    · right
      refine ⟨nd, ?_, rfl, ?_⟩
      · exact
          (match ((js.map (fun j =>
              if j.id = nd.1 then { j with assigned_pawn := some pw.id } else j)).find?
                (fun j => decide (j.id = nd.1))).bind (fun j => j.marker_pos) with
           | some gp => some (grid_to_world gp gs.tile_size gs.width gs.height)
           | none => pw.movement)
      · unfold deconstruction_assign_step
        rw [hidle]
        simp only [Option.isSome_none, Bool.false_eq_true, if_false]
        rw [if_neg (not_not_intro hen)]
        rw [hfn]
  · left
    unfold deconstruction_assign_step
    rw [hidle]
    simp only [Option.isSome_none, Bool.false_eq_true, if_false]
    rw [if_pos hen]

lemma decon_assign_map_id_bp (js : List DeconstructionJob) (jid0 : ℕ) (pid : ℕ) :
    (js.map (fun j =>
      if j.id = jid0 then { j with assigned_pawn := some pid } else j)).map
        (fun j => (j.id, j.marker_pos)) =
      js.map (fun j => (j.id, j.marker_pos)) := by
  rw [List.map_map]
  apply List.map_congr_left
  intro j hj
  by_cases hc : j.id = jid0 <;> simp [hc]

lemma mem_decon_assign_map_unassigned (js : List DeconstructionJob) (jid0 : ℕ) (pid : ℕ)
    (j2 : DeconstructionJob)
    (h : j2 ∈ js.map (fun j =>
      if j.id = jid0 then { j with assigned_pawn := some pid } else j))
    (hun : j2.assigned_pawn = none) : j2 ∈ js := by
  rcases List.mem_map.mp h with ⟨j, hj, hfj⟩
  by_cases hc : j.id = jid0
  · rw [if_pos hc] at hfj
    rw [← hfj] at hun
    simp at hun
  · rw [if_neg hc] at hfj
    rw [← hfj]
    exact hj

lemma deconstruction_fold_invariant (gs : GridSettings) (jobs0 : List DeconstructionJob)
    (hjn : (jobs0.map (fun j => j.id)).Nodup) :
    ∀ (rest : List Pawn) (done : List Pawn) (js : List DeconstructionJob),
      (∀ p ∈ rest, p.job_id = none) →
      js.map (fun j => (j.id, j.marker_pos)) =
        jobs0.map (fun j => (j.id, j.marker_pos)) →
      (∀ p ∈ done, ∀ jid, p.job_id = some jid →
        ∃ j ∈ js, j.id = jid ∧ j.assigned_pawn = some p.id) →
      (∀ j ∈ js, ∀ pid, j.assigned_pawn = some pid →
        ∃ p ∈ done, p.id = pid ∧ p.job_id = some j.id) →
      (∀ p ∈ done, ∀ jid, p.job_id = some jid →
        ∃ j ∈ js, j.id = jid ∧ ∃ gp, j.marker_pos = some gp ∧
          ∀ j2 ∈ js, j2.assigned_pawn = none → ∀ gp2, j2.marker_pos = some gp2 →
            dist2 p.pos (grid_to_world gp gs.tile_size gs.width gs.height) ≤
              dist2 p.pos (grid_to_world gp2 gs.tile_size gs.width gs.height)) →
      ((rest.foldl (deconstruction_assign_step gs) (done, js)).1.map (fun p => p.id) =
        done.map (fun p => p.id) ++ rest.map (fun p => p.id)) ∧
      ((rest.foldl (deconstruction_assign_step gs) (done, js)).2.map
          (fun j => (j.id, j.marker_pos)) =
        jobs0.map (fun j => (j.id, j.marker_pos))) ∧
      (∀ p ∈ (rest.foldl (deconstruction_assign_step gs) (done, js)).1, ∀ jid,
        p.job_id = some jid →
        ∃ j ∈ (rest.foldl (deconstruction_assign_step gs) (done, js)).2,
          j.id = jid ∧ j.assigned_pawn = some p.id) ∧
      (∀ j ∈ (rest.foldl (deconstruction_assign_step gs) (done, js)).2, ∀ pid,
        j.assigned_pawn = some pid →
        ∃ p ∈ (rest.foldl (deconstruction_assign_step gs) (done, js)).1,
          p.id = pid ∧ p.job_id = some j.id) ∧
      (∀ p ∈ (rest.foldl (deconstruction_assign_step gs) (done, js)).1, ∀ jid,
        p.job_id = some jid →
        ∃ j ∈ (rest.foldl (deconstruction_assign_step gs) (done, js)).2, j.id = jid ∧
          ∃ gp, j.marker_pos = some gp ∧
            ∀ j2 ∈ (rest.foldl (deconstruction_assign_step gs) (done, js)).2,
              j2.assigned_pawn = none → ∀ gp2, j2.marker_pos = some gp2 →
                dist2 p.pos (grid_to_world gp gs.tile_size gs.width gs.height) ≤
                  dist2 p.pos (grid_to_world gp2 gs.tile_size gs.width gs.height)) := by
  intro rest
  induction rest with
  | nil =>
      intro done js hrest hJ hP1 hP2 hP5
      refine ⟨by simp, hJ, hP1, hP2, hP5⟩
  | cons pw rest ih =>
      intro done js hrest hJ hP1 hP2 hP5
      have hid : pw.job_id = none := hrest pw (List.mem_cons_self _ _)
      have hrest' : ∀ p ∈ rest, p.job_id = none :=
        fun p hp => hrest p (List.mem_cons_of_mem _ hp)
      simp only [List.foldl_cons]
      rcases deconstruction_assign_step_spec gs done js pw hid with hstep | ⟨nd, M, hfn, hstep⟩
      · rw [hstep]
        have hP1' : ∀ p ∈ done ++ [pw], ∀ jid, p.job_id = some jid →
            ∃ j ∈ js, j.id = jid ∧ j.assigned_pawn = some p.id := by
          intro p hp jid hpj
          rcases List.mem_append.mp hp with hp | hp
          · exact hP1 p hp jid hpj
          · rcases List.mem_singleton.mp hp with rfl
            rw [hid] at hpj
            cases hpj
        have hP2' : ∀ j ∈ js, ∀ pid, j.assigned_pawn = some pid →
            ∃ p ∈ done ++ [pw], p.id = pid ∧ p.job_id = some j.id := by
          intro j hj pid hja
          rcases hP2 j hj pid hja with ⟨p, hp, h1, h2⟩
          exact ⟨p, List.mem_append.mpr (Or.inl hp), h1, h2⟩
        have hP5' : ∀ p ∈ done ++ [pw], ∀ jid, p.job_id = some jid →
            ∃ j ∈ js, j.id = jid ∧ ∃ gp, j.marker_pos = some gp ∧
              ∀ j2 ∈ js, j2.assigned_pawn = none → ∀ gp2, j2.marker_pos = some gp2 →
                dist2 p.pos (grid_to_world gp gs.tile_size gs.width gs.height) ≤
                  dist2 p.pos (grid_to_world gp2 gs.tile_size gs.width gs.height) := by
          intro p hp jid hpj
          rcases List.mem_append.mp hp with hp | hp
          · exact hP5 p hp jid hpj
          · rcases List.mem_singleton.mp hp with rfl
            rw [hid] at hpj
            cases hpj
        rcases ih (done ++ [pw]) js hrest' hJ hP1' hP2' hP5' with ⟨hids, hJ2, hp1, hp2, hp5⟩
        refine ⟨?_, hJ2, hp1, hp2, hp5⟩
        rw [hids]
        simp
      · rw [hstep]
        have hjs_nodup : (js.map (fun j => j.id)).Nodup := by
          have h2 := congrArg (List.map Prod.fst) hJ
          rw [List.map_map, List.map_map] at h2
          have h3 : js.map (fun j => j.id) = jobs0.map (fun j => j.id) := h2
          rw [h3]
          exact hjn
        have hinj := List.inj_on_of_nodup_map hjs_nodup
        rcases find_nearest_deconstruction_job_spec gs pw.pos js nd.1 nd.2 (by simpa using hfn) with
          ⟨⟨jsel, hjsel, hjsel_id, hjsel_un, gp, hgp, hd⟩, hmin⟩
        have hkey : ∀ j ∈ js, j.id = nd.1 → j = jsel := by
          intro j hj hji
          exact hinj hj hjsel (by rw [hji, hjsel_id])
        have hselmem : (if jsel.id = nd.1 then
            { jsel with assigned_pawn := some pw.id } else jsel) ∈ js.map (fun j =>
              if j.id = nd.1 then { j with assigned_pawn := some pw.id } else j) :=
          List.mem_map_of_mem _ hjsel
        rw [if_pos hjsel_id] at hselmem
        have hmem_ne : ∀ j ∈ js, j.id ≠ nd.1 → j ∈ js.map (fun j =>
            if j.id = nd.1 then { j with assigned_pawn := some pw.id } else j) := by
          intro j hj hne
          have h0 := List.mem_map_of_mem
            (fun j : DeconstructionJob =>
              if j.id = nd.1 then { j with assigned_pawn := some pw.id } else j) hj
          simp only [if_neg hne] at h0
          exact h0
        have hassigned_ne : ∀ j ∈ js, ∀ pid : ℕ, j.assigned_pawn = some pid →
            j.id ≠ nd.1 := by
          intro j hj pid hja hji
          rw [hkey j hj hji] at hja
          rw [hjsel_un] at hja
          cases hja
        have hP1' : ∀ p ∈ done ++ [{ pw with job_id := some nd.1, movement := M }],
            ∀ jid, p.job_id = some jid →
            ∃ j ∈ js.map (fun j =>
              if j.id = nd.1 then { j with assigned_pawn := some pw.id } else j),
              j.id = jid ∧ j.assigned_pawn = some p.id := by
          intro p hp jid hpj
          rcases List.mem_append.mp hp with hp | hp
          · rcases hP1 p hp jid hpj with ⟨j, hj, hji, hja⟩
            exact ⟨j, hmem_ne j hj (hassigned_ne j hj p.id hja), hji, hja⟩
          · rcases List.mem_singleton.mp hp with rfl
            simp only at hpj
            rcases Option.some.inj hpj with rfl
            exact ⟨_, hselmem, by simp [hjsel_id], by simp⟩
        have hP2' : ∀ j ∈ js.map (fun j =>
            if j.id = nd.1 then { j with assigned_pawn := some pw.id } else j),
            ∀ pid, j.assigned_pawn = some pid →
            ∃ p ∈ done ++ [{ pw with job_id := some nd.1, movement := M }],
              p.id = pid ∧ p.job_id = some j.id := by
          intro j2 hj2 pid hja
          rcases List.mem_map.mp hj2 with ⟨j, hj, hfj⟩
          by_cases hc : j.id = nd.1
          · rw [if_pos hc] at hfj
            have hjeq : j = jsel := hkey j hj hc
            rw [← hfj] at hja ⊢
            simp only at hja ⊢
            rcases Option.some.inj hja with rfl
            refine ⟨{ pw with job_id := some nd.1, movement := M },
              List.mem_append.mpr (Or.inr (List.mem_singleton.mpr rfl)), rfl, ?_⟩
            simp [hc]
          · rw [if_neg hc] at hfj
            rw [← hfj] at hja ⊢
            rcases hP2 j hj pid hja with ⟨p, hp, h1, h2⟩
            exact ⟨p, List.mem_append.mpr (Or.inl hp), h1, h2⟩
        have hP5' : ∀ p ∈ done ++ [{ pw with job_id := some nd.1, movement := M }],
            ∀ jid, p.job_id = some jid →
            ∃ j ∈ js.map (fun j =>
              if j.id = nd.1 then { j with assigned_pawn := some pw.id } else j),
              j.id = jid ∧ ∃ gp0, j.marker_pos = some gp0 ∧
              ∀ j2 ∈ js.map (fun j =>
                if j.id = nd.1 then { j with assigned_pawn := some pw.id } else j),
                j2.assigned_pawn = none → ∀ gp2, j2.marker_pos = some gp2 →
                  dist2 p.pos (grid_to_world gp0 gs.tile_size gs.width gs.height) ≤
                    dist2 p.pos (grid_to_world gp2 gs.tile_size gs.width gs.height) := by
          intro p hp jid hpj
          rcases List.mem_append.mp hp with hp | hp
          · rcases hP1 p hp jid hpj with ⟨j1, hj1, hj1i, hj1a⟩
            rcases hP5 p hp jid hpj with ⟨j5, hj5, hj5i, gp5, hgp5, hmin5⟩
            have hj15 : j1 = j5 := hinj hj1 hj5 (by rw [hj1i, hj5i])
            have hne : j5.id ≠ nd.1 :=
              hassigned_ne j5 hj5 p.id (by rw [← hj15]; exact hj1a)
            refine ⟨j5, hmem_ne j5 hj5 hne, hj5i, gp5, hgp5, ?_⟩
            intro j2 hj2 hun gp2 hgp2
            exact hmin5 j2 (mem_decon_assign_map_unassigned js nd.1 pw.id j2 hj2 hun) hun gp2 hgp2
          · rcases List.mem_singleton.mp hp with rfl
            simp only at hpj
            rcases Option.some.inj hpj with rfl
            refine ⟨_, hselmem, by simp [hjsel_id], gp, by simp [hgp], ?_⟩
            intro j2 hj2 hun gp2 hgp2
            have hj2js := mem_decon_assign_map_unassigned js nd.1 pw.id j2 hj2 hun
            have := hmin j2 hj2js hun gp2 hgp2
            simp only
            rw [← hd]
            exact this
        rcases ih (done ++ [{ pw with job_id := some nd.1, movement := M }])
          (js.map (fun j =>
            if j.id = nd.1 then { j with assigned_pawn := some pw.id } else j))
          hrest' ((decon_assign_map_id_bp js nd.1 pw.id).trans hJ) hP1' hP2' hP5' with
          ⟨hids, hJ2, hp1, hp2, hp5⟩
        refine ⟨?_, hJ2, hp1, hp2, hp5⟩
        rw [hids]
        simp

lemma deconstruction_pass_sound_of (gs : GridSettings) (pawns : List Pawn)
    (jobs : List DeconstructionJob)
    (hpn : (pawns.map (fun p => p.id)).Nodup)
    (hjn : (jobs.map (fun j => j.id)).Nodup)
    (hidle : ∀ p ∈ pawns, p.job_id = none)
    (hun : ∀ j ∈ jobs, j.assigned_pawn = none) :
    deconstruction_pass_sound gs (assign_deconstruction_jobs_to_pawns gs pawns jobs).1
      (assign_deconstruction_jobs_to_pawns gs pawns jobs).2 := by
  have hbase2 : ∀ j ∈ jobs, ∀ pid, j.assigned_pawn = some pid →
      ∃ p ∈ ([] : List Pawn), p.id = pid ∧ p.job_id = some j.id := by
    intro j hj pid hja
    rw [hun j hj] at hja
    cases hja
  rcases deconstruction_fold_invariant gs jobs hjn pawns [] jobs hidle rfl
    (by intro p hp; cases hp) hbase2 (by intro p hp; cases hp) with
    ⟨hids, hJ, hp1, hp2, hp5⟩
  have hres : assign_deconstruction_jobs_to_pawns gs pawns jobs =
      pawns.foldl (deconstruction_assign_step gs) ([], jobs) := rfl
  rw [hres]
  have hjs_nodup : ((pawns.foldl (deconstruction_assign_step gs) ([], jobs)).2.map
      (fun j => j.id)).Nodup := by
    have h2 := congrArg (List.map Prod.fst) hJ
    rw [List.map_map, List.map_map] at h2
    have h3 : (pawns.foldl (deconstruction_assign_step gs) ([], jobs)).2.map
        (fun j => j.id) = jobs.map (fun j => j.id) := h2
    rw [h3]
    exact hjn
  have hps_nodup : ((pawns.foldl (deconstruction_assign_step gs) ([], jobs)).1.map
      (fun p => p.id)).Nodup := by
    rw [hids]
    simpa using hpn
  have hjinj := List.inj_on_of_nodup_map hjs_nodup
  have hpinj := List.inj_on_of_nodup_map hps_nodup
  refine ⟨hp1, hp2, ?_, ?_, hp5⟩
  · intro p1 hm1 p2 hm2 jid h1 h2
    rcases hp1 p1 hm1 jid h1 with ⟨j1, hj1, hj1i, hj1a⟩
    rcases hp1 p2 hm2 jid h2 with ⟨j2, hj2, hj2i, hj2a⟩
    have hj12 : j1 = j2 := hjinj hj1 hj2 (by rw [hj1i, hj2i])
    rw [hj12] at hj1a
    exact Option.some.inj (hj1a.symm.trans hj2a)
  · intro j1 hj1 j2 hj2 pid h1 h2
    rcases hp2 j1 hj1 pid h1 with ⟨p1, hm1, hpi1, hpj1⟩
    rcases hp2 j2 hj2 pid h2 with ⟨p2, hm2, hpi2, hpj2⟩
    have hp12 : p1 = p2 := hpinj hm1 hm2 (by rw [hpi1, hpi2])
    rw [hp12] at hpj1
    exact Option.some.inj (hpj1.symm.trans hpj2)

/-- C7: within one scheduler pass over idle workers (construction and then
deconstruction), no job is assigned to two workers and no worker holds two
jobs, pawn-side and job-side assignment records agree, and each assigned
worker's job is at minimal (squared) Euclidean world distance among the
jobs still unassigned -- assignments are written immediately, so later
workers in the pass only consider jobs still unassigned. -/
theorem c7_scheduler_single_assignment (gs : GridSettings) (pawns : List Pawn)
    (cjobs : List ConstructionJob) (djobs : List DeconstructionJob)
    (hpn : (pawns.map (fun p => p.id)).Nodup)
    (hcn : (cjobs.map (fun j => j.id)).Nodup)
    (hdn : (djobs.map (fun j => j.id)).Nodup)
    (hidle : ∀ p ∈ pawns, p.job_id = none)
    (hcun : ∀ j ∈ cjobs, j.assigned_pawn = none)
    (hdun : ∀ j ∈ djobs, j.assigned_pawn = none) :
    construction_pass_sound gs (assign_jobs_to_pawns gs pawns cjobs).1
      (assign_jobs_to_pawns gs pawns cjobs).2 ∧
    deconstruction_pass_sound gs
      (assign_deconstruction_jobs_to_pawns gs pawns djobs).1
      (assign_deconstruction_jobs_to_pawns gs pawns djobs).2 :=
  ⟨construction_pass_sound_of gs pawns cjobs hpn hcn hidle hcun,
   deconstruction_pass_sound_of gs pawns djobs hpn hdn hidle hdun⟩

/-- Witness for C7: two idle construction-enabled pawns, two construction
jobs and one deconstruction job. -/
theorem c7_scheduler_single_assignment_witness :
    ((([
      ({ id := 1,
         pos := ((0 : ℚ), (0 : ℚ)),
         job_id := none,
         construction_enabled := true,
         reception_enabled := false,
         staffing := none,
         movement := none } : Pawn),
      ({ id := 2,
         pos := ((100 : ℚ), (0 : ℚ)),
         job_id := none,
         construction_enabled := true,
         reception_enabled := false,
         staffing := none,
         movement := none } : Pawn)]).map (fun p => p.id)).Nodup ∧
     (([
      ({ id := 10,
         blueprint_pos := some ((50 : ℤ), (50 : ℤ)),
         assigned_pawn := none,
         priority := 5 } : ConstructionJob),
      ({ id := 11,
         blueprint_pos := some ((51 : ℤ), (50 : ℤ)),
         assigned_pawn := none,
         priority := 5 } : ConstructionJob)]).map (fun j => j.id)).Nodup ∧
     (([
      ({ id := 20,
         marker_pos := some ((60 : ℤ), (60 : ℤ)),
         assigned_pawn := none } : DeconstructionJob)]).map (fun j => j.id)).Nodup ∧
     (∀ p ∈ ([
      ({ id := 1,
         pos := ((0 : ℚ), (0 : ℚ)),
         job_id := none,
         construction_enabled := true,
         reception_enabled := false,
         staffing := none,
         movement := none } : Pawn),
      ({ id := 2,
         pos := ((100 : ℚ), (0 : ℚ)),
         job_id := none,
         construction_enabled := true,
         reception_enabled := false,
         staffing := none,
         movement := none } : Pawn)]), p.job_id = none) ∧
     (∀ j ∈ ([
      ({ id := 10,
         blueprint_pos := some ((50 : ℤ), (50 : ℤ)),
         assigned_pawn := none,
         priority := 5 } : ConstructionJob),
      ({ id := 11,
         blueprint_pos := some ((51 : ℤ), (50 : ℤ)),
         assigned_pawn := none,
         priority := 5 } : ConstructionJob)]), j.assigned_pawn = none) ∧
     (∀ j ∈ ([
      ({ id := 20,
         marker_pos := some ((60 : ℤ), (60 : ℤ)),
         assigned_pawn := none } : DeconstructionJob)]), j.assigned_pawn = none)) ∧
    construction_pass_sound GridSettings.default
      (assign_jobs_to_pawns GridSettings.default ([
      ({ id := 1,
         pos := ((0 : ℚ), (0 : ℚ)),
         job_id := none,
         construction_enabled := true,
         reception_enabled := false,
         staffing := none,
         movement := none } : Pawn),
      ({ id := 2,
         pos := ((100 : ℚ), (0 : ℚ)),
         job_id := none,
         construction_enabled := true,
         reception_enabled := false,
         staffing := none,
         movement := none } : Pawn)]) ([
      ({ id := 10,
         blueprint_pos := some ((50 : ℤ), (50 : ℤ)),
         assigned_pawn := none,
         priority := 5 } : ConstructionJob),
      ({ id := 11,
         blueprint_pos := some ((51 : ℤ), (50 : ℤ)),
         assigned_pawn := none,
         priority := 5 } : ConstructionJob)])).1
      (assign_jobs_to_pawns GridSettings.default ([
      ({ id := 1,
         pos := ((0 : ℚ), (0 : ℚ)),
         job_id := none,
         construction_enabled := true,
         reception_enabled := false,
         staffing := none,
         movement := none } : Pawn),
      ({ id := 2,
         pos := ((100 : ℚ), (0 : ℚ)),
         job_id := none,
         construction_enabled := true,
         reception_enabled := false,
         staffing := none,
         movement := none } : Pawn)]) ([
      ({ id := 10,
         blueprint_pos := some ((50 : ℤ), (50 : ℤ)),
         assigned_pawn := none,
         priority := 5 } : ConstructionJob),
      ({ id := 11,
         blueprint_pos := some ((51 : ℤ), (50 : ℤ)),
         assigned_pawn := none,
         priority := 5 } : ConstructionJob)])).2 ∧
    deconstruction_pass_sound GridSettings.default
      (assign_deconstruction_jobs_to_pawns GridSettings.default ([
      ({ id := 1,
         pos := ((0 : ℚ), (0 : ℚ)),
         job_id := none,
         construction_enabled := true,
         reception_enabled := false,
         staffing := none,
         movement := none } : Pawn),
      ({ id := 2,
         pos := ((100 : ℚ), (0 : ℚ)),
         job_id := none,
         construction_enabled := true,
         reception_enabled := false,
         staffing := none,
         movement := none } : Pawn)]) ([
      ({ id := 20,
         marker_pos := some ((60 : ℤ), (60 : ℤ)),
         assigned_pawn := none } : DeconstructionJob)])).1
      (assign_deconstruction_jobs_to_pawns GridSettings.default ([
      ({ id := 1,
         pos := ((0 : ℚ), (0 : ℚ)),
         job_id := none,
         construction_enabled := true,
         reception_enabled := false,
         staffing := none,
         movement := none } : Pawn),
      ({ id := 2,
         pos := ((100 : ℚ), (0 : ℚ)),
         job_id := none,
         construction_enabled := true,
         reception_enabled := false,
         staffing := none,
         movement := none } : Pawn)]) ([
      ({ id := 20,
         marker_pos := some ((60 : ℤ), (60 : ℤ)),
         assigned_pawn := none } : DeconstructionJob)])).2 :=
  ⟨⟨by decide, by decide, by decide, by decide, by decide, by decide⟩,
   c7_scheduler_single_assignment GridSettings.default ([
      ({ id := 1,
         pos := ((0 : ℚ), (0 : ℚ)),
         job_id := none,
         construction_enabled := true,
         reception_enabled := false,
         staffing := none,
         movement := none } : Pawn),
      ({ id := 2,
         pos := ((100 : ℚ), (0 : ℚ)),
         job_id := none,
         construction_enabled := true,
         reception_enabled := false,
         staffing := none,
         movement := none } : Pawn)]) ([
      ({ id := 10,
         blueprint_pos := some ((50 : ℤ), (50 : ℤ)),
         assigned_pawn := none,
         priority := 5 } : ConstructionJob),
      ({ id := 11,
         blueprint_pos := some ((51 : ℤ), (50 : ℤ)),
         assigned_pawn := none,
         priority := 5 } : ConstructionJob)]) ([
      ({ id := 20,
         marker_pos := some ((60 : ℤ), (60 : ℤ)),
         assigned_pawn := none } : DeconstructionJob)])
     (by decide) (by decide) (by decide) (by decide) (by decide) (by decide)⟩

lemma mem_gridFinset (gs : GridSettings) (p : Pos) :
    p ∈ gridFinset gs ↔ in_bounds gs p := by
  unfold gridFinset in_bounds
  simp only [Finset.mem_image, Finset.mem_product, Finset.mem_range, Prod.exists]
  constructor
  · rintro ⟨a, b, ⟨ha, hb⟩, rfl⟩
    refine ⟨by positivity, ?_, by positivity, ?_⟩
    · omega
    · omega
  · rintro ⟨h1, h2, h3, h4⟩
    refine ⟨p.1.toNat, p.2.toNat, ⟨by omega, by omega⟩, ?_⟩
    simp only [Int.toNat_of_nonneg h1, Int.toNat_of_nonneg h3]

lemma card_gridFinset_le (gs : GridSettings) :
    (gridFinset gs).card ≤ gs.width.toNat * gs.height.toNat := by
  unfold gridFinset
  calc ((Finset.range gs.width.toNat ×ˢ Finset.range gs.height.toNat).image
      (fun q => ((q.1 : ℤ), (q.2 : ℤ)))).card
      ≤ (Finset.range gs.width.toNat ×ˢ Finset.range gs.height.toNat).card :=
        Finset.card_image_le
    _ = gs.width.toNat * gs.height.toNat := by
        rw [Finset.card_product, Finset.card_range, Finset.card_range]

lemma mem_neighbors4 (a b : Pos) :
    b ∈ neighbors4 a ↔
      (b.1 = a.1 + 1 ∧ b.2 = a.2) ∨ (b.1 = a.1 - 1 ∧ b.2 = a.2) ∨
      (b.1 = a.1 ∧ b.2 = a.2 + 1) ∨ (b.1 = a.1 ∧ b.2 = a.2 - 1) := by
  unfold neighbors4
  rcases b with ⟨bx, by0⟩
  simp [Prod.ext_iff]

lemma neighbors4_symm (a b : Pos) (h : b ∈ neighbors4 a) : a ∈ neighbors4 b := by
  rw [mem_neighbors4] at h ⊢
  omega

lemma adj_free_symm (m : BuildingMap) (gs : GridSettings) :
    Symmetric (adj_free m gs) := by
  intro a b ⟨ha, hb, hmem⟩
  exact ⟨hb, ha, neighbors4_symm a b hmem⟩

lemma reachFree_symm (m : BuildingMap) (gs : GridSettings) (a b : Pos)
    (h : ReachFree m gs a b) : ReachFree m gs b a :=
  Relation.ReflTransGen.symmetric (adj_free_symm m gs) h

lemma reachFree_free_of_ne (m : BuildingMap) (gs : GridSettings) (a b : Pos)
    (h : ReachFree m gs a b) (hb : free_tile m gs a) : free_tile m gs b := by
  induction h with
  | refl => exact hb
  | tail _ hstep ih => exact hstep.2.1

lemma reach_closed (m : BuildingMap) (gs : GridSettings) (S : Finset Pos)
    (hcl : ∀ t ∈ S, ∀ n ∈ neighbors4 t, free_tile m gs n → n ∈ S)
    (q t : Pos) (hq : q ∈ S) (h : ReachFree m gs q t) : t ∈ S := by
  induction h with
  | refl => exact hq
  | tail _ hstep ih => exact hcl _ ih _ hstep.2.2 hstep.2.1

lemma flood_fill_loop_spec (m : BuildingMap) (gs : GridSettings) (p0 : Pos)
    (vb : Finset Pos) :
    ∀ (fuel : ℕ) (queue : List Pos) (visited room : Finset Pos) (enc : Bool),
      (∀ q ∈ queue, free_tile m gs q ∧ ReachFree m gs p0 q) →
      (∀ t ∈ visited, t ∉ vb → free_tile m gs t ∧ ReachFree m gs p0 t ∧
        ∀ n ∈ neighbors4 t, free_tile m gs n → n ∈ visited ∨ n ∈ queue) →
      vb ⊆ visited →
      5 * (gridFinset gs \ visited).card + queue.length ≤ fuel →
      ∃ room2 visited2 enc2,
        flood_fill_loop m gs fuel queue visited room enc =
          some (room2, visited2, enc2) ∧
        visited ⊆ visited2 ∧
        room2 = room ∪ (visited2 \ visited) ∧
        (∀ q ∈ queue, q ∈ visited2) ∧
        (∀ t ∈ visited2, t ∉ vb → free_tile m gs t ∧ ReachFree m gs p0 t ∧
          ∀ n ∈ neighbors4 t, free_tile m gs n → n ∈ visited2) ∧
        (enc2 = true ↔ (enc = true ∧ ∀ t ∈ visited2, t ∉ visited → ¬ on_ring gs t)) := by
  intro fuel
  induction fuel with
  | zero =>
      intro queue visited room enc hQ h3 hsub hfuel
      cases queue with
      | nil =>
          refine ⟨room, visited, enc, rfl, fun a ha => ha, by simp, ?_, ?_, ?_⟩
          · intro q hq
            cases hq
          · intro t ht htv
            rcases h3 t ht htv with ⟨hf, hr, hcl⟩
            refine ⟨hf, hr, ?_⟩
            intro n hn hfn
            rcases hcl n hn hfn with h | h
            · exact h
            · cases h
          · exact ⟨fun h => ⟨h, fun t ht htv => absurd ht htv⟩, fun h => h.1⟩
      | cons pos rest =>
          simp only [List.length_cons] at hfuel
          omega
  | succ fuel ih =>
      intro queue visited room enc hQ h3 hsub hfuel
      cases queue with
      | nil =>
          refine ⟨room, visited, enc, rfl, fun a ha => ha, by simp, ?_, ?_, ?_⟩
          · intro q hq
            cases hq
          · intro t ht htv
            rcases h3 t ht htv with ⟨hf, hr, hcl⟩
            refine ⟨hf, hr, ?_⟩
            intro n hn hfn
            rcases hcl n hn hfn with h | h
            · exact h
            · cases h
          · exact ⟨fun h => ⟨h, fun t ht htv => absurd ht htv⟩, fun h => h.1⟩
      | cons pos rest =>
          rcases hQ pos (List.mem_cons_self _ _) with ⟨hfree, hreach⟩
          have hQrest : ∀ q ∈ rest, free_tile m gs q ∧ ReachFree m gs p0 q :=
            fun q hq => hQ q (List.mem_cons_of_mem _ hq)
          by_cases hv : pos ∈ visited
          · have hred : flood_fill_loop m gs (fuel + 1) (pos :: rest) visited room enc =
                flood_fill_loop m gs fuel rest visited room enc := by
              simp only [flood_fill_loop, if_pos hv]
            rw [hred]
            have h3' : ∀ t ∈ visited, t ∉ vb → free_tile m gs t ∧ ReachFree m gs p0 t ∧
                ∀ n ∈ neighbors4 t, free_tile m gs n → n ∈ visited ∨ n ∈ rest := by
              intro t ht htv
              rcases h3 t ht htv with ⟨hf, hr, hcl⟩
              refine ⟨hf, hr, ?_⟩
              intro n hn hfn
              rcases hcl n hn hfn with h | h
              · exact Or.inl h
              · rcases List.mem_cons.mp h with rfl | h
                · exact Or.inl hv
                · exact Or.inr h
            rcases ih rest visited room enc hQrest h3' hsub
              (by simp only [List.length_cons] at hfuel; omega) with
              ⟨room2, visited2, enc2, heq, hs, hrm, hqp, h3f, hencf⟩
            exact ⟨room2, visited2, enc2, heq, hs, hrm,
              fun q hq => by
                rcases List.mem_cons.mp hq with rfl | hq
                · exact hs hv
                · exact hqp q hq,
              h3f, hencf⟩
          · -- process pos
            rcases hfree with ⟨hib, hocc, hdoor⟩
            have hfree' : free_tile m gs pos := ⟨hib, hocc, hdoor⟩
            have hred : flood_fill_loop m gs (fuel + 1) (pos :: rest) visited room enc =
                flood_fill_loop m gs fuel
                  (rest ++ (neighbors4 pos).filter (fun n =>
                    decide (in_bounds gs n) && decide (n ∉ insert pos visited) &&
                    decide (¬ m.is_occupied n) && decide (n ∉ m.doors)))
                  (insert pos visited) (insert pos room)
                  (if on_ring gs pos then false else enc) := by
              simp only [flood_fill_loop, if_neg hv]
            rw [hred]
            have hpushfree : ∀ q ∈ (neighbors4 pos).filter (fun n =>
                decide (in_bounds gs n) && decide (n ∉ insert pos visited) &&
                decide (¬ m.is_occupied n) && decide (n ∉ m.doors)),
                free_tile m gs q ∧ ReachFree m gs p0 q := by
              intro q hq
              rcases List.mem_filter.mp hq with ⟨hmem, hcond⟩
              simp only [Bool.and_eq_true, decide_eq_true_eq] at hcond
              have hfq : free_tile m gs q := ⟨hcond.1.1.1, hcond.1.2, hcond.2⟩
              exact ⟨hfq, hreach.tail ⟨hfree', hfq, hmem⟩⟩
            have hQ' : ∀ q ∈ rest ++ (neighbors4 pos).filter (fun n =>
                decide (in_bounds gs n) && decide (n ∉ insert pos visited) &&
                decide (¬ m.is_occupied n) && decide (n ∉ m.doors)),
                free_tile m gs q ∧ ReachFree m gs p0 q := by
              intro q hq
              rcases List.mem_append.mp hq with hq | hq
              · exact hQrest q hq
              · exact hpushfree q hq
            have h3' : ∀ t ∈ insert pos visited, t ∉ vb →
                free_tile m gs t ∧ ReachFree m gs p0 t ∧
                ∀ n ∈ neighbors4 t, free_tile m gs n →
                  n ∈ insert pos visited ∨ n ∈ rest ++ (neighbors4 pos).filter (fun n =>
                    decide (in_bounds gs n) && decide (n ∉ insert pos visited) &&
                    decide (¬ m.is_occupied n) && decide (n ∉ m.doors)) := by
              intro t ht htv
              rcases Finset.mem_insert.mp ht with rfl | ht
              · refine ⟨hfree', hreach, ?_⟩
                intro n hn hfn
                by_cases hni : n ∈ insert t visited
                · exact Or.inl hni
                · refine Or.inr (List.mem_append.mpr (Or.inr (List.mem_filter.mpr
                    ⟨hn, ?_⟩)))
                  simp only [Bool.and_eq_true, decide_eq_true_eq]
                  exact ⟨⟨⟨hfn.1, hni⟩, hfn.2.1⟩, hfn.2.2⟩
              · rcases h3 t ht htv with ⟨hf, hr, hcl⟩
                refine ⟨hf, hr, ?_⟩
                intro n hn hfn
                rcases hcl n hn hfn with h | h
                · exact Or.inl (Finset.mem_insert_of_mem h)
                · rcases List.mem_cons.mp h with rfl | h
                  · exact Or.inl (Finset.mem_insert_self _ _)
                  · exact Or.inr (List.mem_append.mpr (Or.inl h))
            have hsub' : vb ⊆ insert pos visited :=
              fun a ha => Finset.mem_insert_of_mem (hsub ha)
            have hposgrid : pos ∈ gridFinset gs \ visited :=
              Finset.mem_sdiff.mpr ⟨(mem_gridFinset gs pos).mpr hib, hv⟩
            have hcard : (gridFinset gs \ insert pos visited).card + 1 =
                (gridFinset gs \ visited).card := by
              rw [Finset.sdiff_insert, Finset.card_erase_of_mem hposgrid]
              have : 1 ≤ (gridFinset gs \ visited).card :=
                Finset.card_pos.mpr ⟨pos, hposgrid⟩
              omega
            have hpushlen : ((neighbors4 pos).filter (fun n =>
                decide (in_bounds gs n) && decide (n ∉ insert pos visited) &&
                decide (¬ m.is_occupied n) && decide (n ∉ m.doors))).length ≤ 4 :=
              List.length_filter_le _ _
            have hfuel' : 5 * (gridFinset gs \ insert pos visited).card +
                (rest ++ (neighbors4 pos).filter (fun n =>
                  decide (in_bounds gs n) && decide (n ∉ insert pos visited) &&
                  decide (¬ m.is_occupied n) && decide (n ∉ m.doors))).length ≤ fuel := by
              rw [List.length_append]
              simp only [List.length_cons] at hfuel
              omega
            rcases ih _ (insert pos visited) (insert pos room)
              (if on_ring gs pos then false else enc) hQ' h3' hsub' hfuel' with
              ⟨room2, visited2, enc2, heq, hs, hrm, hqp, h3f, hencf⟩
            have hposF : pos ∈ visited2 := hs (Finset.mem_insert_self _ _)
            refine ⟨room2, visited2, enc2, heq,
              fun a ha => hs (Finset.mem_insert_of_mem ha), ?_, ?_, h3f, ?_⟩
            · rw [hrm]
              ext t
              simp only [Finset.mem_union, Finset.mem_sdiff, Finset.mem_insert]
              constructor
              · rintro ((rfl | ht) | ⟨htF, hnot⟩)
                · exact Or.inr ⟨hposF, hv⟩
                · exact Or.inl ht
                · exact Or.inr ⟨htF, fun hmem => hnot (Or.inr hmem)⟩
              · rintro (ht | ⟨htF, hnv⟩)
                · exact Or.inl (Or.inr ht)
                · by_cases htp : t = pos
                  · exact Or.inl (Or.inl htp)
                  · refine Or.inr ⟨htF, ?_⟩
                    rintro (rfl | hx)
                    · exact htp rfl
                    · exact hnv hx
            · intro q hq
              rcases List.mem_cons.mp hq with rfl | hq
              · exact hposF
              · exact hqp q (List.mem_append.mpr (Or.inl hq))
            · rw [hencf]
              by_cases hring : on_ring gs pos
              · simp only [if_pos hring]
                constructor
                · rintro ⟨hfalse, -⟩
                  cases hfalse
                · rintro ⟨-, hall⟩
                  exact absurd hring (hall pos hposF hv)
              · simp only [if_neg hring]
                constructor
                · rintro ⟨henc, hall⟩
                  refine ⟨henc, ?_⟩
                  intro t htF htv
                  by_cases htp : t = pos
                  · rw [htp]
                    exact hring
                  · refine hall t htF ?_
                    intro hmem
                    rcases Finset.mem_insert.mp hmem with h | h
                    · exact htp h
                    · exact htv h
                · rintro ⟨henc, hall⟩
                  refine ⟨henc, ?_⟩
                  intro t htF htv
                  exact hall t htF (fun hmem => htv (Finset.mem_insert_of_mem hmem))

lemma flood_fill_room_spec (m : BuildingMap) (gs : GridSettings) (start : Pos)
    (visited0 : Finset Pos)
    (hfree : free_tile m gs start)
    (hdisj : ∀ q, free_tile m gs q → ReachFree m gs start q → q ∉ visited0) :
    ∃ room2 visited2 enc2,
      flood_fill_room start m gs visited0 = some (room2, visited2, enc2) ∧
      visited2 = visited0 ∪ room2 ∧
      (∀ q, q ∈ room2 ↔ free_tile m gs q ∧ ReachFree m gs start q) ∧
      (enc2 = true ↔ ∀ q ∈ room2, ¬ on_ring gs q) := by
  have hfuel : 5 * (gridFinset gs \ visited0).card + ([start] : List Pos).length ≤
      5 * (gs.width.toNat * gs.height.toNat) + 1 := by
    have h1 : (gridFinset gs \ visited0).card ≤ (gridFinset gs).card :=
      Finset.card_le_card Finset.sdiff_subset
    have h2 := card_gridFinset_le gs
    simp only [List.length_cons, List.length_nil]
    omega
  have hQ : ∀ q ∈ ([start] : List Pos),
      free_tile m gs q ∧ ReachFree m gs start q := by
    intro q hq
    rcases List.mem_cons.mp hq with rfl | h
    · exact ⟨hfree, Relation.ReflTransGen.refl⟩
    · cases h
  rcases flood_fill_loop_spec m gs start visited0
      (5 * (gs.width.toNat * gs.height.toNat) + 1) [start] visited0 ∅ true
      hQ (fun t ht htv => absurd ht htv) (fun a ha => ha) hfuel with
    ⟨room2, visited2, enc2, heq, hsub, hrm, hqp, h3f, hencf⟩
  rw [Finset.empty_union] at hrm
  subst hrm
  have hstart : start ∈ visited2 := hqp start (List.mem_cons_self _ _)
  have hstartS : start ∈ visited2 \ visited0 :=
    Finset.mem_sdiff.mpr ⟨hstart, hdisj start hfree Relation.ReflTransGen.refl⟩
  have hScl : ∀ t ∈ visited2 \ visited0, ∀ n ∈ neighbors4 t,
      free_tile m gs n → n ∈ visited2 \ visited0 := by
    intro t ht n hn hfn
    rcases Finset.mem_sdiff.mp ht with ⟨htF, htv⟩
    rcases h3f t htF htv with ⟨hft, hrt, hcl⟩
    have hrn : ReachFree m gs start n := hrt.tail ⟨hft, hfn, hn⟩
    exact Finset.mem_sdiff.mpr ⟨hcl n hn hfn, hdisj n hfn hrn⟩
  refine ⟨visited2 \ visited0, visited2, enc2, heq, ?_, ?_, ?_⟩
  · ext t
    simp only [Finset.mem_union, Finset.mem_sdiff]
    constructor
    · intro ht
      by_cases h : t ∈ visited0
      · exact Or.inl h
      · exact Or.inr ⟨ht, h⟩
    · rintro (h | ⟨h, -⟩)
      · exact hsub h
      · exact h
  · intro q
    constructor
    · intro hq
      rcases Finset.mem_sdiff.mp hq with ⟨hqF, hqv⟩
      rcases h3f q hqF hqv with ⟨hf, hr, -⟩
      exact ⟨hf, hr⟩
    · rintro ⟨hf, hr⟩
      exact reach_closed m gs _ hScl start q hstartS hr
  · rw [hencf]
    simp only [true_and]
    constructor
    · intro hall q hq
      rcases Finset.mem_sdiff.mp hq with ⟨hF, hv⟩
      exact hall q hF hv
    · intro hall t htF htv
      exact hall t (Finset.mem_sdiff.mpr ⟨htF, htv⟩)

lemma find_enclosed_rooms_eq (m : BuildingMap) (gs : GridSettings) :
    find_enclosed_rooms m gs =
      ((scanList gs).foldl (room_scan_step m gs)
        ((∅ : Finset Pos), ([] : List (Finset Pos)))).2 := rfl

lemma mem_scanList (gs : GridSettings) (p : Pos) :
    p ∈ scanList gs ↔ in_bounds gs p := by
  unfold scanList in_bounds
  simp only [List.mem_flatMap, List.mem_map, List.mem_range]
  constructor
  · rintro ⟨y, hy, x, hx, rfl⟩
    refine ⟨by positivity, ?_, by positivity, ?_⟩
    · omega
    · omega
  · rintro ⟨h1, h2, h3, h4⟩
    refine ⟨p.2.toNat, by omega, p.1.toNat, by omega, ?_⟩
    have e1 : ((p.1.toNat : ℕ) : ℤ) = p.1 := Int.toNat_of_nonneg h1
    have e2 : ((p.2.toNat : ℕ) : ℤ) = p.2 := Int.toNat_of_nonneg h3
    rw [e1, e2]

lemma room_scan_step_inv (m : BuildingMap) (gs : GridSettings)
    (acc : Finset Pos × List (Finset Pos)) (pos : Pos)
    (hib : in_bounds gs pos) (hinv : roomInv m gs acc) :
    roomInv m gs (room_scan_step m gs acc pos) ∧
    acc.1 ⊆ (room_scan_step m gs acc pos).1 ∧
    (∀ R ∈ acc.2, R ∈ (room_scan_step m gs acc pos).2) ∧
    (free_tile m gs pos → pos ∈ (room_scan_step m gs acc pos).1) := by
  obtain ⟨hI1, hI2, hI3, hI4⟩ := hinv
  by_cases hskip : pos ∈ acc.1 ∨ m.is_occupied pos ∨ pos ∈ m.doors
  · have hred : room_scan_step m gs acc pos = acc := by
      unfold room_scan_step
      rw [if_pos hskip]
    rw [hred]
    refine ⟨⟨hI1, hI2, hI3, hI4⟩, fun a ha => ha, fun R hR => hR, ?_⟩
    intro hf
    rcases hskip with h | h | h
    · exact h
    · exact absurd h hf.2.1
    · exact absurd h hf.2.2
  · push_neg at hskip
    have hfree : free_tile m gs pos := ⟨hib, hskip.2.1, hskip.2.2⟩
    have hdisj : ∀ q, free_tile m gs q → ReachFree m gs pos q → q ∉ acc.1 := by
      intro q hf hr hq
      exact hskip.1 (hI2 q hq pos hfree (reachFree_symm m gs pos q hr))
    rcases flood_fill_room_spec m gs pos acc.1 hfree hdisj with
      ⟨room2, visited2, enc2, heq, hveq, hchar, hencI⟩
    have hI1' : ∀ t ∈ visited2, free_tile m gs t := by
      intro t ht
      rw [hveq] at ht
      rcases Finset.mem_union.mp ht with h | h
      · exact hI1 t h
      · exact ((hchar t).mp h).1
    have hI2' : ∀ t ∈ visited2, ∀ n, free_tile m gs n →
        ReachFree m gs t n → n ∈ visited2 := by
      intro t ht n hfn hr
      rw [hveq] at ht ⊢
      rcases Finset.mem_union.mp ht with h | h
      · exact Finset.mem_union.mpr (Or.inl (hI2 t h n hfn hr))
      · rcases (hchar t).mp h with ⟨hft, hrt⟩
        exact Finset.mem_union.mpr (Or.inr ((hchar n).mpr
          ⟨hfn, hrt.trans hr⟩))
    have hsub' : acc.1 ⊆ visited2 := by
      rw [hveq]
      exact fun a ha => Finset.mem_union.mpr (Or.inl ha)
    have hposmem : pos ∈ visited2 := by
      rw [hveq]
      exact Finset.mem_union.mpr (Or.inr ((hchar pos).mpr
        ⟨hfree, Relation.ReflTransGen.refl⟩))
    have hRe : ∀ t ∈ room2, ∀ R : Finset Pos,
        (∀ q, q ∈ R ↔ free_tile m gs q ∧ ReachFree m gs t q) → R = room2 := by
      intro t ht R hR
      rcases (hchar t).mp ht with ⟨hft, hrt⟩
      ext q
      rw [hR q, hchar q]
      constructor
      · rintro ⟨hf, hr⟩
        exact ⟨hf, hrt.trans hr⟩
      · rintro ⟨hf, hr⟩
        exact ⟨hf, (reachFree_symm m gs pos t hrt).trans hr⟩
    have hI4v : ∀ t ∈ visited2, ∀ R : Finset Pos,
        (∀ q, q ∈ R ↔ free_tile m gs q ∧ ReachFree m gs t q) →
        4 ≤ R.card → (∀ q ∈ R, ¬ on_ring gs q) →
        R ∈ acc.2 ∨ (R = room2 ∧ enc2 = true ∧ 4 ≤ room2.card) := by
      intro t ht R hR hcard hring
      rw [hveq] at ht
      rcases Finset.mem_union.mp ht with h | h
      · exact Or.inl (hI4 t h R hR hcard hring)
      · have hReq := hRe t h R hR
        subst hReq
        exact Or.inr ⟨rfl, hencI.mpr hring, hcard⟩
    have hred : room_scan_step m gs acc pos =
        (match (some (room2, visited2, enc2) :
            Option (Finset Pos × Finset Pos × Bool)) with
          | some (room_tiles, visited2, true) =>
              if 4 ≤ room_tiles.card then (visited2, acc.2 ++ [room_tiles])
              else (visited2, acc.2)
          | some (room_tiles, visited2, false) => (visited2, acc.2)
          | none => acc) := by
      unfold room_scan_step
      rw [if_neg (by push_neg; exact hskip), heq]
    cases enc2 with
    | false =>
        have hred2 : room_scan_step m gs acc pos = (visited2, acc.2) := hred
        rw [hred2]
        refine ⟨⟨hI1', hI2', hI3, ?_⟩, hsub', fun R hR => hR, fun _ => hposmem⟩
        intro t ht R hR hcard hring
        rcases hI4v t ht R hR hcard hring with h | ⟨rfl, hfalse, -⟩
        · exact h
        · cases hfalse
    | true =>
        by_cases hcard : 4 ≤ room2.card
        · have hred2 : room_scan_step m gs acc pos =
              (visited2, acc.2 ++ [room2]) := by
            rw [hred]
            simp only [if_pos hcard]
          rw [hred2]
          refine ⟨⟨hI1', hI2', ?_, ?_⟩, hsub',
            fun R hR => List.mem_append.mpr (Or.inl hR), fun _ => hposmem⟩
          · intro R hR
            rcases List.mem_append.mp hR with h | h
            · exact hI3 R h
            · rcases List.mem_singleton.mp h with rfl
              exact ⟨pos, hfree, hchar, hcard, hencI.mp rfl⟩
          · intro t ht R hR hc hring
            rcases hI4v t ht R hR hc hring with h | ⟨rfl, -, -⟩
            · exact List.mem_append.mpr (Or.inl h)
            · exact List.mem_append.mpr (Or.inr (List.mem_singleton.mpr rfl))
        · have hred2 : room_scan_step m gs acc pos = (visited2, acc.2) := by
            rw [hred]
            simp only [if_neg hcard]
          rw [hred2]
          refine ⟨⟨hI1', hI2', hI3, ?_⟩, hsub', fun R hR => hR, fun _ => hposmem⟩
          intro t ht R hR hc hring
          rcases hI4v t ht R hR hc hring with h | ⟨rfl, -, hc2⟩
          · exact h
          · exact absurd hc2 hcard

lemma room_scan_fold_inv (m : BuildingMap) (gs : GridSettings) :
    ∀ (scan : List Pos) (acc : Finset Pos × List (Finset Pos)),
      (∀ p ∈ scan, in_bounds gs p) → roomInv m gs acc →
      roomInv m gs (scan.foldl (room_scan_step m gs) acc) ∧
      acc.1 ⊆ (scan.foldl (room_scan_step m gs) acc).1 ∧
      (∀ R ∈ acc.2, R ∈ (scan.foldl (room_scan_step m gs) acc).2) ∧
      (∀ p ∈ scan, free_tile m gs p →
        p ∈ (scan.foldl (room_scan_step m gs) acc).1) := by
  intro scan
  induction scan with
  | nil =>
      intro acc _ hinv
      exact ⟨hinv, fun a ha => ha, fun R hR => hR, fun p hp => absurd hp
        (List.not_mem_nil p)⟩
  | cons pos rest ih =>
      intro acc hib hinv
      rcases room_scan_step_inv m gs acc pos
        (hib pos (List.mem_cons_self _ _)) hinv with ⟨hinv', hsub', hroom', hpos'⟩
      rcases ih (room_scan_step m gs acc pos)
        (fun p hp => hib p (List.mem_cons_of_mem _ hp)) hinv' with
        ⟨hinvF, hsubF, hroomF, hmemF⟩
      simp only [List.foldl_cons]
      refine ⟨hinvF, fun a ha => hsubF (hsub' ha),
        fun R hR => hroomF R (hroom' R hR), ?_⟩
      intro p hp hf
      rcases List.mem_cons.mp hp with rfl | hp
      · exact hsubF (hpos' hf)
      · exact hmemF p hp hf

set_option maxRecDepth 10000 in
/-- C6: find_enclosed_rooms returns exactly the maximal 4-connected regions
of in-bounds, non-occupied, non-door tiles that have at least 4 tiles and no
tile on the outermost ring of the grid; a region touching that ring is
discarded (its tiles stay visited, so it contributes no room).  In
particular, on a 6 x 6 grid a 2 x 2 interior fully enclosed by walls yields
exactly one room of size 4, and removing one of those wall tiles (opening the
interior to the grid edge) yields zero rooms. -/
theorem c6_room_detection :
    (∀ (m : BuildingMap) (gs : GridSettings) (R : Finset Pos),
      R ∈ find_enclosed_rooms m gs ↔
        ∃ p, free_tile m gs p ∧
          (∀ q, q ∈ R ↔ free_tile m gs q ∧ ReachFree m gs p q) ∧
          4 ≤ R.card ∧ ∀ q ∈ R, ¬ on_ring gs q) ∧
    find_enclosed_rooms
      { occupied := {(1,1),(2,1),(3,1),(4,1),(1,4),(2,4),(3,4),(4,4),
          (1,2),(1,3),(4,2),(4,3)},
        walls := {(1,1),(2,1),(3,1),(4,1),(1,4),(2,4),(3,4),(4,4),
          (1,2),(1,3),(4,2),(4,3)},
        doors := ∅, floors := ∅ }
      { tile_size := 16, width := 6, height := 6 } =
      [{(2,2),(3,2),(2,3),(3,3)}] ∧
    find_enclosed_rooms
      { occupied := {(1,1),(3,1),(4,1),(1,4),(2,4),(3,4),(4,4),
          (1,2),(1,3),(4,2),(4,3)},
        walls := {(1,1),(3,1),(4,1),(1,4),(2,4),(3,4),(4,4),
          (1,2),(1,3),(4,2),(4,3)},
        doors := ∅, floors := ∅ }
      { tile_size := 16, width := 6, height := 6 } = [] := by
  refine ⟨?_, by decide, by decide⟩
  intro m gs R
  rw [find_enclosed_rooms_eq]
  have hscan : ∀ p ∈ scanList gs, in_bounds gs p :=
    fun p hp => (mem_scanList gs p).mp hp
  have hinv0 : roomInv m gs ((∅ : Finset Pos), ([] : List (Finset Pos))) := by
    refine ⟨?_, ?_, ?_, ?_⟩
    · intro t ht
      cases Finset.not_mem_empty t ht
    · intro t ht
      cases Finset.not_mem_empty t ht
    · intro S hS
      cases List.not_mem_nil S hS
    · intro t ht
      cases Finset.not_mem_empty t ht
  rcases room_scan_fold_inv m gs (scanList gs)
      ((∅ : Finset Pos), ([] : List (Finset Pos))) hscan hinv0 with
    ⟨⟨hI1, hI2, hI3, hI4⟩, -, -, hmemF⟩
  constructor
  · intro hR
    exact hI3 R hR
  · rintro ⟨p, hfp, hchar, hcard, hring⟩
    have hp := hmemF p ((mem_scanList gs p).mpr hfp.1) hfp
    exact hI4 p hp R hchar hcard hring
